/-
  Verification of the jumushtap gig-labor marketplace core
  (job lifecycle, application lifecycle, check-in, escrow/settlement engine)
  against its natural-language specification.

  The Python source is shallowly embedded: Django model methods and service
  functions become pure Lean functions over explicit state records.
  `Decimal` money amounts become `ℚ`; timestamps become `ℚ` (hours) or `Nat`;
  database rows become entries of lists carried in a state record; a raised
  exception becomes an `Except.error` (Django's `transaction.atomic` rolls the
  whole operation back on an exception, which is exactly what returning
  `Except.error` without a new state models).
-/
import Mathlib

namespace Jumushtap

/-! ## Status enumerations (apps/jobs/models.py, apps/payments/models.py) -/

/-- Job lifecycle states (`JobStatus` in apps/jobs/models.py). -/
inductive JobStatus
  | draft
  | published
  | in_progress
  | completed
  | cancelled
deriving DecidableEq, Repr

/-- Worker application status (`ApplicationStatus` in apps/jobs/models.py). -/
inductive ApplicationStatus
  | pending
  | accepted
  | rejected
  | withdrawn
deriving DecidableEq, Repr

/-- Transaction status lifecycle (`TransactionStatus` in apps/payments/models.py). -/
inductive TransactionStatus
  | pending
  | held
  | completed
  | refunded
  | failed
deriving DecidableEq, Repr

/-- Escrow status (`EscrowStatus` in apps/payments/models.py). -/
inductive EscrowStatus
  | held
  | released
  | refunded
deriving DecidableEq, Repr

/-- Payout status (`PayoutStatus` in apps/payments/models.py). -/
inductive PayoutStatus
  | pending
  | processing
  | completed
  | failed
deriving DecidableEq, Repr

/-! ## Job entity and its status state machine (apps/jobs/models.py, class Job) -/

/-- The fields of the `Job` model that the verified operations read or write.
`workers_accepted` is kept as `Int` (the Django field is an unsigned integer
column, but `withdraw` decrements it with no floor guard, so the model must be
able to express a negative value in order to prove it never occurs). -/
structure Job where
  id : Nat
  business : Nat
  hourly_rate : ℚ
  workers_needed : Nat
  workers_accepted : Int
  location_lat : ℚ
  location_lng : ℚ
  status : JobStatus
  published_at : Option Nat
deriving DecidableEq, Repr

/-- Errors raised by the jobs subsystem; each constructor stands for one
`raise` site in apps/jobs (`ValueError` / `PermissionError` with the quoted
message).  `invalidTransition` carries the current and the requested status,
as the source message "Cannot transition from {status} to {new_status}" does. -/
inductive JobsError
  | invalidTransition (current target : JobStatus)
  | unauthorized
  | onlyPublishedApply
  | conflictJobFull
  | alreadyApplied
  | workerNotVerified
  | onlyPendingAccept
  | onlyPendingReject
  | appNotFound
deriving DecidableEq, Repr

/-- `Job.can_transition_to` (apps/jobs/models.py): the `valid_transitions`
dictionary, looked up at the current status, membership-tested for the target. -/
def Job.can_transition_to (job : Job) (new_status : JobStatus) : Bool :=
  let valid_transitions : JobStatus → List JobStatus := fun s =>
    match s with
    | .draft => [.published, .cancelled]
    | .published => [.in_progress, .cancelled]
    | .in_progress => [.completed, .cancelled]
    | .completed => []
    | .cancelled => []
  (valid_transitions job.status).contains new_status

/-- `Job.transition_to` (apps/jobs/models.py): validates the transition,
raising `ValueError` naming both statuses when it is not allowed; on success
updates the status and stamps `published_at` on the first publish.
`now` is the value of `timezone.now()`. -/
def Job.transition_to (job : Job) (new_status : JobStatus) (now : Nat) :
    Except JobsError Job :=
  if ¬ job.can_transition_to new_status then
    .error (.invalidTransition job.status new_status)
  else
    let job := { job with status := new_status }
    let job :=
      if new_status = JobStatus.published ∧ job.published_at = none then
        { job with published_at := some now }
      else job
    .ok job

/-- `Job.is_full` (apps/jobs/models.py): `workers_accepted >= workers_needed`. -/
def Job.is_full (job : Job) : Bool :=
  (job.workers_needed : Int) ≤ job.workers_accepted

/-- The transition table exactly as the specification states it:
draft → {published, cancelled}; published → {in_progress, cancelled};
in_progress → {completed, cancelled}; completed and cancelled terminal.
Written from the spec's words, to be compared with `Job.can_transition_to`. -/
def specAllowedTransition : JobStatus → JobStatus → Prop := fun s t =>
  (s = .draft ∧ (t = .published ∨ t = .cancelled)) ∨
  (s = .published ∧ (t = .in_progress ∨ t = .cancelled)) ∨
  (s = .in_progress ∧ (t = .completed ∨ t = .cancelled))

instance (s t : JobStatus) : Decidable (specAllowedTransition s t) := by
  unfold specAllowedTransition; infer_instance

/-! ## Applications (apps/jobs/models.py `JobApplication`, apps/jobs/services.py
`ApplicationService`) -/

/-- One `JobApplication` row for a fixed job.  `unique_together (job, worker)`
means the worker id identifies the application within a job, so the worker id
is the key used by the operations below. -/
structure AppRecord where
  worker : Nat
  status : ApplicationStatus
deriving DecidableEq, Repr

/-- The mutable state of one job together with its applications. -/
structure JobState where
  job : Job
  apps : List AppRecord
deriving DecidableEq, Repr

/-- Look up the application of `worker` (the `JobApplication` row addressed by
the unique (job, worker) pair). -/
def findApp (st : JobState) (worker : Nat) : Option AppRecord :=
  st.apps.find? (fun a => a.worker == worker)

/-- Write `status` on the application row of `worker` (the `save` of the
mutated `JobApplication` instance). -/
def setAppStatus (apps : List AppRecord) (worker : Nat) (s : ApplicationStatus) :
    List AppRecord :=
  apps.map (fun a => if a.worker == worker then { a with status := s } else a)

/-- `ApplicationService.apply_to_job` (apps/jobs/services.py): requires the
job to be published, not full, the (job, worker) pair fresh, and the worker's
profile verified; creates a pending application.  `verified` is the
externally-supplied fact `worker.worker_profile.verification_status ==
'verified'`. -/
def apply_to_job (st : JobState) (worker : Nat) (verified : Bool) :
    Except JobsError JobState :=
  if st.job.status ≠ JobStatus.published then .error .onlyPublishedApply
  else if st.job.is_full then .error .conflictJobFull
  else if st.apps.any (fun a => a.worker == worker) then .error .alreadyApplied
  else if !verified then .error .workerNotVerified
  else .ok { st with apps := st.apps ++ [⟨worker, ApplicationStatus.pending⟩] }

/-- `JobApplication.accept` (apps/jobs/models.py): only pending applications;
fails with "Job is already full" at capacity; otherwise marks the application
accepted and increments the job's `workers_accepted` counter by one. -/
def acceptApplication (st : JobState) (worker : Nat) : Except JobsError JobState :=
  match findApp st worker with
  | none => .error .appNotFound
  | some a =>
    if a.status ≠ ApplicationStatus.pending then .error .onlyPendingAccept
    else if st.job.is_full then .error .conflictJobFull
    else .ok { job := { st.job with workers_accepted := st.job.workers_accepted + 1 },
               apps := setAppStatus st.apps worker ApplicationStatus.accepted }

/-- `JobApplication.reject` (apps/jobs/models.py): only pending applications;
marks the application rejected. -/
def rejectApplication (st : JobState) (worker : Nat) : Except JobsError JobState :=
  match findApp st worker with
  | none => .error .appNotFound
  | some a =>
    if a.status ≠ ApplicationStatus.pending then .error .onlyPendingReject
    else .ok { st with apps := setAppStatus st.apps worker ApplicationStatus.rejected }

/-- `JobApplication.withdraw` (apps/jobs/models.py): no status precondition;
decrements `workers_accepted` exactly when the prior status was accepted, then
sets the status to withdrawn. -/
def withdrawApplication (st : JobState) (worker : Nat) : Except JobsError JobState :=
  match findApp st worker with
  | none => .error .appNotFound
  | some a =>
    let job :=
      if a.status = ApplicationStatus.accepted then
        { st.job with workers_accepted := st.job.workers_accepted - 1 }
      else st.job
    .ok { job := job, apps := setAppStatus st.apps worker ApplicationStatus.withdrawn }

/-- One step of the public application-lifecycle operations. -/
inductive JobsStep : JobState → JobState → Prop
  | applyStep (w : Nat) (v : Bool) (st st' : JobState) :
      apply_to_job st w v = .ok st' → JobsStep st st'
  | acceptStep (w : Nat) (st st' : JobState) :
      acceptApplication st w = .ok st' → JobsStep st st'
  | rejectStep (w : Nat) (st st' : JobState) :
      rejectApplication st w = .ok st' → JobsStep st st'
  | withdrawStep (w : Nat) (st st' : JobState) :
      withdrawApplication st w = .ok st' → JobsStep st st'

/-- States reachable from `st0` through the public operations. -/
def ReachableJobs (st0 st : JobState) : Prop :=
  Relation.ReflTransGen JobsStep st0 st

/-- A freshly created job: no applications yet and the `workers_accepted`
counter at its column default 0. -/
def isInitialJobState (st : JobState) : Prop :=
  st.apps = [] ∧ st.job.workers_accepted = 0

/-- Number of accepted applications in a list of rows. -/
def countAccepted (l : List AppRecord) : Nat :=
  (l.filter (fun a => a.status == ApplicationStatus.accepted)).length

/-- The inductive invariant of the application subsystem: worker keys are
unique, the counter equals the number of accepted applications, and the
counter does not exceed capacity. -/
def JobsInv (st : JobState) : Prop :=
  (st.apps.map (fun a => a.worker)).Nodup ∧
  st.job.workers_accepted = (countAccepted st.apps : Int) ∧
  st.job.workers_accepted ≤ (st.job.workers_needed : Int)

/-! ### Helper lemmas about `setAppStatus` and `countAccepted` -/

lemma setAppStatus_of_not_mem (l : List AppRecord) (w : Nat) (s : ApplicationStatus)
    (h : ∀ a ∈ l, a.worker ≠ w) : setAppStatus l w s = l := by
  induction l with
  | nil => rfl
  | cons b bs ih =>
    have hb : b.worker ≠ w := h b (List.mem_cons_self b bs)
    have hbs : ∀ a ∈ bs, a.worker ≠ w := fun a ha => h a (List.mem_cons_of_mem b ha)
    simp [setAppStatus] at ih ⊢
    exact ⟨fun hc => absurd hc hb, ih hbs⟩

lemma map_worker_setAppStatus (l : List AppRecord) (w : Nat) (s : ApplicationStatus) :
    (setAppStatus l w s).map (fun a => a.worker) = l.map (fun a => a.worker) := by
  induction l with
  | nil => rfl
  | cons b bs ih =>
    simp only [setAppStatus, List.map_cons] at ih ⊢
    refine congrArg₂ _ ?_ ih
    by_cases hb : b.worker = w <;> simp [hb]

/-- Updating the found row from a non-accepted status to `accepted` raises the
accepted count by exactly one (worker keys unique). -/
lemma countAccepted_set_accepted (l : List AppRecord) (w : Nat) (a : AppRecord)
    (hnd : (l.map (fun a => a.worker)).Nodup)
    (hfind : l.find? (fun a => a.worker == w) = some a)
    (ha : a.status ≠ ApplicationStatus.accepted) :
    countAccepted (setAppStatus l w ApplicationStatus.accepted) = countAccepted l + 1 := by
  induction l with
  | nil => simp at hfind
  | cons b bs ih =>
    rw [List.find?_cons] at hfind
    simp only [List.map_cons, List.nodup_cons] at hnd
    by_cases hb : b.worker = w
    · simp only [hb, beq_self_eq_true] at hfind
      obtain rfl : b = a := by injection hfind
      have hbs : setAppStatus bs w ApplicationStatus.accepted = bs := by
        refine setAppStatus_of_not_mem bs w _ (fun x hx hxw => ?_)
        exact hnd.1 (by rw [hb, ← hxw]; exact List.mem_map_of_mem (fun a => a.worker) hx)
      simp only [setAppStatus, List.map_cons, hb, beq_self_eq_true, if_true]
      rw [show List.map (fun a => if a.worker == w then { a with status := ApplicationStatus.accepted } else a) bs = setAppStatus bs w ApplicationStatus.accepted from rfl, hbs]
      simp [countAccepted, List.filter_cons, ha, hb]
    · have hbw : (b.worker == w) = false := by simp [hb]
      rw [hbw] at hfind
      simp only [cond_false] at hfind
      have := ih hnd.2 hfind
      simp only [setAppStatus, List.map_cons, hbw, Bool.false_eq_true, if_false] at this ⊢
      simp only [countAccepted, List.filter_cons] at this ⊢
      by_cases hacc : b.status = ApplicationStatus.accepted <;>
        simp [hacc, this] at this ⊢ <;> omega

/-- Updating the found accepted row to a non-accepted status lowers the
accepted count by exactly one. -/
lemma countAccepted_unset_accepted (l : List AppRecord) (w : Nat) (a : AppRecord)
    (s : ApplicationStatus) (hs : s ≠ ApplicationStatus.accepted)
    (hnd : (l.map (fun a => a.worker)).Nodup)
    (hfind : l.find? (fun a => a.worker == w) = some a)
    (ha : a.status = ApplicationStatus.accepted) :
    countAccepted l = countAccepted (setAppStatus l w s) + 1 := by
  induction l with
  | nil => simp at hfind
  | cons b bs ih =>
    rw [List.find?_cons] at hfind
    simp only [List.map_cons, List.nodup_cons] at hnd
    by_cases hb : b.worker = w
    · simp only [hb, beq_self_eq_true] at hfind
      obtain rfl : b = a := by injection hfind
      have hbs : setAppStatus bs w s = bs := by
        refine setAppStatus_of_not_mem bs w _ (fun x hx hxw => ?_)
        exact hnd.1 (by rw [hb, ← hxw]; exact List.mem_map_of_mem (fun a => a.worker) hx)
      simp only [setAppStatus, List.map_cons, hb, beq_self_eq_true, if_true]
      rw [show List.map (fun a => if a.worker == w then { a with status := s } else a) bs = setAppStatus bs w s from rfl, hbs]
      simp [countAccepted, List.filter_cons, ha, hs]
    · have hbw : (b.worker == w) = false := by simp [hb]
      rw [hbw] at hfind
      simp only [cond_false] at hfind
      have := ih hnd.2 hfind
      simp only [setAppStatus, List.map_cons, hbw, Bool.false_eq_true, if_false] at this ⊢
      simp only [countAccepted, List.filter_cons] at this ⊢
      by_cases hacc : b.status = ApplicationStatus.accepted <;>
        simp [hacc] at this ⊢ <;> omega

/-- Updating the found row between two non-accepted statuses leaves the
accepted count unchanged. -/
lemma countAccepted_set_other (l : List AppRecord) (w : Nat) (a : AppRecord)
    (s : ApplicationStatus) (hs : s ≠ ApplicationStatus.accepted)
    (hnd : (l.map (fun a => a.worker)).Nodup)
    (hfind : l.find? (fun a => a.worker == w) = some a)
    (ha : a.status ≠ ApplicationStatus.accepted) :
    countAccepted (setAppStatus l w s) = countAccepted l := by
  induction l with
  | nil => simp at hfind
  | cons b bs ih =>
    rw [List.find?_cons] at hfind
    simp only [List.map_cons, List.nodup_cons] at hnd
    by_cases hb : b.worker = w
    · simp only [hb, beq_self_eq_true] at hfind
      obtain rfl : b = a := by injection hfind
      have hbs : setAppStatus bs w s = bs := by
        refine setAppStatus_of_not_mem bs w _ (fun x hx hxw => ?_)
        exact hnd.1 (by rw [hb, ← hxw]; exact List.mem_map_of_mem (fun a => a.worker) hx)
      simp only [setAppStatus, List.map_cons, hb, beq_self_eq_true, if_true]
      rw [show List.map (fun a => if a.worker == w then { a with status := s } else a) bs = setAppStatus bs w s from rfl, hbs]
      simp [countAccepted, List.filter_cons, ha, hs]
    · have hbw : (b.worker == w) = false := by simp [hb]
      rw [hbw] at hfind
      simp only [cond_false] at hfind
      have := ih hnd.2 hfind
      simp only [setAppStatus, List.map_cons, hbw, Bool.false_eq_true, if_false] at this ⊢
      simp only [countAccepted, List.filter_cons] at this ⊢
      by_cases hacc : b.status = ApplicationStatus.accepted <;>
        simp [hacc] at this ⊢ <;> omega

/-- If the first row matching the worker key is `a`, then after the status
write the first matching row is `a` with the new status. -/
lemma find?_setAppStatus (l : List AppRecord) (w : Nat) (s : ApplicationStatus)
    (a : AppRecord) (hfind : l.find? (fun a => a.worker == w) = some a) :
    (setAppStatus l w s).find? (fun a => a.worker == w) = some { a with status := s } := by
  induction l with
  | nil => simp at hfind
  | cons b bs ih =>
    rw [List.find?_cons] at hfind
    simp only [setAppStatus, List.map_cons]
    rw [List.find?_cons]
    by_cases hb : (b.worker == w) = true
    · rw [hb] at hfind
      simp only [cond_true, Option.some.injEq] at hfind
      subst hfind
      have hcond : ((if (b.worker == w) = true then { b with status := s } else b).worker == w)
          = true := by
        rw [if_pos hb]; exact hb
      rw [hcond, if_pos hb]
    · have hbw : (b.worker == w) = false := by simpa using hb
      rw [hbw] at hfind
      simp only [cond_false] at hfind
      have hcond : ((if (b.worker == w) = true then { b with status := s } else b).worker == w)
          = false := by
        rw [if_neg (by simp [hbw])]; exact hbw
      rw [hcond]
      simpa only [setAppStatus] using ih hfind

/-! ### Inversion lemmas for the successful branches -/

lemma apply_to_job_ok {st : JobState} {w : Nat} {v : Bool} {st' : JobState}
    (h : apply_to_job st w v = .ok st') :
    st.job.status = JobStatus.published ∧ st.job.is_full = false ∧
    st.apps.any (fun a => a.worker == w) = false ∧ v = true ∧
    st' = { st with apps := st.apps ++ [⟨w, ApplicationStatus.pending⟩] } := by
  unfold apply_to_job at h
  split at h
  next h1 => simp at h
  next h1 =>
  split at h
  next h2 => simp at h
  next h2 =>
  split at h
  next h3 => simp at h
  next h3 =>
  split at h
  next h4 => simp at h
  next h4 =>
  simp only [Except.ok.injEq] at h
  exact ⟨not_not.mp h1, by simpa using h2, by simpa using h3, by simpa using h4, h.symm⟩

lemma acceptApplication_ok {st : JobState} {w : Nat} {st' : JobState}
    (h : acceptApplication st w = .ok st') :
    ∃ a, findApp st w = some a ∧ a.status = ApplicationStatus.pending ∧
      st.job.is_full = false ∧
      st' = { job := { st.job with workers_accepted := st.job.workers_accepted + 1 },
              apps := setAppStatus st.apps w ApplicationStatus.accepted } := by
  unfold acceptApplication at h
  split at h
  next hfind => simp at h
  next a hfind =>
    split at h
    next h1 => simp at h
    next h1 =>
    split at h
    next h2 => simp at h
    next h2 =>
    simp only [Except.ok.injEq] at h
    exact ⟨a, hfind, not_not.mp h1, by simpa using h2, h.symm⟩

lemma rejectApplication_ok {st : JobState} {w : Nat} {st' : JobState}
    (h : rejectApplication st w = .ok st') :
    ∃ a, findApp st w = some a ∧ a.status = ApplicationStatus.pending ∧
      st' = { st with apps := setAppStatus st.apps w ApplicationStatus.rejected } := by
  unfold rejectApplication at h
  split at h
  next hfind => simp at h
  next a hfind =>
    split at h
    next h1 => simp at h
    next h1 =>
    simp only [Except.ok.injEq] at h
    exact ⟨a, hfind, not_not.mp h1, h.symm⟩

lemma withdrawApplication_ok {st : JobState} {w : Nat} {st' : JobState}
    (h : withdrawApplication st w = .ok st') :
    ∃ a, findApp st w = some a ∧
      st' = { job := if a.status = ApplicationStatus.accepted then
                  { st.job with workers_accepted := st.job.workers_accepted - 1 }
                else st.job,
              apps := setAppStatus st.apps w ApplicationStatus.withdrawn } := by
  unfold withdrawApplication at h
  split at h
  next hfind => simp at h
  next a hfind =>
    simp only [Except.ok.injEq] at h
    exact ⟨a, hfind, h.symm⟩

/-! ### Invariant preservation -/

lemma jobsInv_apply {st st' : JobState} {w : Nat} {v : Bool}
    (h : apply_to_job st w v = .ok st') (hinv : JobsInv st) : JobsInv st' := by
  obtain ⟨_, _, hnew, _, rfl⟩ := apply_to_job_ok h
  obtain ⟨hnd, hcount, hle⟩ := hinv
  simp only [List.any_eq_false] at hnew
  refine ⟨?_, ?_, hle⟩
  · simp only [List.map_append, List.map_cons, List.map_nil]
    rw [List.nodup_append]
    refine ⟨hnd, List.nodup_singleton _, ?_⟩
    intro x hx hx1
    simp only [List.mem_singleton] at hx1
    subst hx1
    obtain ⟨b, hb, hbw⟩ := List.mem_map.mp hx
    exact (hnew b hb) (by simp [hbw])
  · simpa [countAccepted, List.filter_append] using hcount

lemma jobsInv_accept {st st' : JobState} {w : Nat}
    (h : acceptApplication st w = .ok st') (hinv : JobsInv st) : JobsInv st' := by
  obtain ⟨a, hfind, hpend, hfull, rfl⟩ := acceptApplication_ok h
  obtain ⟨hnd, hcount, hle⟩ := hinv
  have hanot : a.status ≠ ApplicationStatus.accepted := by
    rw [hpend]; intro hc; cases hc
  have hcnt := countAccepted_set_accepted st.apps w a hnd hfind hanot
  have hnotfull : st.job.workers_accepted < (st.job.workers_needed : Int) := by
    have := hfull
    simp only [Job.is_full, decide_eq_false_iff_not, not_le] at this
    exact this
  refine ⟨?_, ?_, ?_⟩
  · simpa [map_worker_setAppStatus] using hnd
  · show st.job.workers_accepted + 1
      = (countAccepted (setAppStatus st.apps w ApplicationStatus.accepted) : Int)
    rw [hcnt, hcount]
    push_cast
    ring
  · show st.job.workers_accepted + 1 ≤ (st.job.workers_needed : Int)
    omega

lemma jobsInv_reject {st st' : JobState} {w : Nat}
    (h : rejectApplication st w = .ok st') (hinv : JobsInv st) : JobsInv st' := by
  obtain ⟨a, hfind, hpend, rfl⟩ := rejectApplication_ok h
  obtain ⟨hnd, hcount, hle⟩ := hinv
  have hanot : a.status ≠ ApplicationStatus.accepted := by
    rw [hpend]; intro hc; cases hc
  have hcnt := countAccepted_set_other st.apps w a ApplicationStatus.rejected
    (by intro hc; cases hc) hnd hfind hanot
  exact ⟨by simpa [map_worker_setAppStatus] using hnd, by simp [hcnt, hcount], hle⟩

lemma jobsInv_withdraw {st st' : JobState} {w : Nat}
    (h : withdrawApplication st w = .ok st') (hinv : JobsInv st) : JobsInv st' := by
  obtain ⟨a, hfind, rfl⟩ := withdrawApplication_ok h
  obtain ⟨hnd, hcount, hle⟩ := hinv
  by_cases hacc : a.status = ApplicationStatus.accepted
  · have hcnt := countAccepted_unset_accepted st.apps w a ApplicationStatus.withdrawn
      (by intro hc; cases hc) hnd hfind hacc
    refine ⟨by simpa [map_worker_setAppStatus] using hnd, ?_, ?_⟩
    · simp only [hacc, if_true]
      show st.job.workers_accepted - 1
        = (countAccepted (setAppStatus st.apps w ApplicationStatus.withdrawn) : Int)
      omega
    · simp only [hacc, if_true]
      show st.job.workers_accepted - 1 ≤ (st.job.workers_needed : Int)
      omega
  · have hcnt := countAccepted_set_other st.apps w a ApplicationStatus.withdrawn
      (by intro hc; cases hc) hnd hfind hacc
    exact ⟨by simpa [map_worker_setAppStatus] using hnd,
      by simp [hacc, hcnt, hcount], by simp [hacc, hle]⟩

lemma jobsInv_step {st st' : JobState} (h : JobsStep st st') (hinv : JobsInv st) :
    JobsInv st' := by
  cases h with
  | applyStep w v _ _ h => exact jobsInv_apply h hinv
  | acceptStep w _ _ h => exact jobsInv_accept h hinv
  | rejectStep w _ _ h => exact jobsInv_reject h hinv
  | withdrawStep w _ _ h => exact jobsInv_withdraw h hinv

lemma jobsInv_reachable {st0 st : JobState} (h0 : JobsInv st0)
    (h : ReachableJobs st0 st) : JobsInv st := by
  induction h with
  | refl => exact h0
  | tail hsteps hstep ih => exact jobsInv_step hstep ih

lemma jobsInv_initial {st : JobState} (h : isInitialJobState st) : JobsInv st := by
  obtain ⟨happs, hacc⟩ := h
  refine ⟨by simp [happs], by simp [happs, hacc, countAccepted], ?_⟩
  rw [hacc]
  exact Int.ofNat_nonneg _

/-! ## C3: the job status state machine -/

/-- **C3.** For every Job and every requested target status, `transition_to`
succeeds iff the pair (current, target) is in the machine
draft→{published, cancelled}, published→{in_progress, cancelled},
in_progress→{completed, cancelled} (completed and cancelled terminal);
any other request fails with an error naming the current and the requested
status and produces no job mutation (the error branch returns no job, so the
caller's job is untouched). -/
theorem transition_to_iff_spec (job : Job) (t : JobStatus) (now : Nat) :
    ((∃ job', job.transition_to t now = .ok job') ↔
      specAllowedTransition job.status t) ∧
    (¬ specAllowedTransition job.status t →
      job.transition_to t now = .error (.invalidTransition job.status t)) := by
  have htable : job.can_transition_to t = true ↔ specAllowedTransition job.status t := by
    unfold Job.can_transition_to specAllowedTransition
    cases h : job.status <;> cases t <;> simp [h]
  constructor
  · constructor
    · rintro ⟨job', hj⟩
      by_contra hna
      have : job.can_transition_to t ≠ true := fun hc => hna (htable.mp hc)
      unfold Job.transition_to at hj
      simp [this] at hj
    · intro hsp
      have hc : job.can_transition_to t = true := htable.mpr hsp
      unfold Job.transition_to
      simp [hc]
  · intro hna
    have : job.can_transition_to t ≠ true := fun hc => hna (htable.mp hc)
    unfold Job.transition_to
    simp [this]

/-- Witness for C3: a draft job publishes successfully, and a completed job
rejects a publish request with the error naming both statuses. -/
theorem transition_to_iff_spec_witness :
    ((∃ job', (Job.mk 1 1 100 1 0 0 0 JobStatus.draft none).transition_to
        JobStatus.published 5 = .ok job') ↔
      specAllowedTransition JobStatus.draft JobStatus.published) ∧
    (¬ specAllowedTransition JobStatus.draft JobStatus.published →
      (Job.mk 1 1 100 1 0 0 0 JobStatus.draft none).transition_to
        JobStatus.published 5 = .error (.invalidTransition JobStatus.draft JobStatus.published)) :=
  transition_to_iff_spec (Job.mk 1 1 100 1 0 0 0 JobStatus.draft none)
    JobStatus.published 5

/-! ## C4, C5, C10: capacity invariant, capacity gating, withdraw -/

/-- A published sample job with the given capacity and counter. -/
def jobP (needed : Nat) (accepted : Int) : Job :=
  Job.mk 1 1 100 needed accepted 0 0 JobStatus.published none

/-- **C4.** For every job reachable through the public operations (apply,
accept, reject, withdraw), `0 ≤ workers_accepted ≤ workers_needed` holds;
accept on a job at capacity fails with the capacity conflict error
("Job is already full", the spec's `Conflict`); a successful accept increments
`workers_accepted` by exactly 1; a withdrawal of an accepted application
decrements it by exactly 1. -/
theorem workers_accepted_bounds :
    (∀ st0 st, isInitialJobState st0 → ReachableJobs st0 st →
      0 ≤ st.job.workers_accepted ∧
        st.job.workers_accepted ≤ (st.job.workers_needed : Int)) ∧
    (∀ st w a, findApp st w = some a → a.status = ApplicationStatus.pending →
      st.job.is_full = true →
      acceptApplication st w = .error .conflictJobFull) ∧
    (∀ st w st', acceptApplication st w = .ok st' →
      st'.job.workers_accepted = st.job.workers_accepted + 1) ∧
    (∀ st w a st', findApp st w = some a → a.status = ApplicationStatus.accepted →
      withdrawApplication st w = .ok st' →
      st'.job.workers_accepted = st.job.workers_accepted - 1) := by
  refine ⟨?_, ?_, ?_, ?_⟩
  · intro st0 st h0 hreach
    obtain ⟨_, hcount, hle⟩ := jobsInv_reachable (jobsInv_initial h0) hreach
    exact ⟨by rw [hcount]; exact Int.ofNat_nonneg _, hle⟩
  · intro st w a hfind hpend hfull
    simp [acceptApplication, hfind, hpend, hfull]
  · intro st w st' h
    obtain ⟨a, hfind, hpend, hfull, rfl⟩ := acceptApplication_ok h
    rfl
  · intro st w a st' hfind hacc h
    obtain ⟨b, hfind2, rfl⟩ := withdrawApplication_ok h
    rw [hfind] at hfind2
    obtain rfl : a = b := by injection hfind2
    simp [hacc]

/-- Witness for C4 at concrete states: the bounds hold at a fresh published
job; accept at capacity yields the conflict error; a concrete accept
increments the counter; a concrete withdrawal of an accepted application
decrements it. -/
theorem workers_accepted_bounds_witness :
    (0 ≤ (JobState.mk (jobP 1 0) []).job.workers_accepted ∧
      (JobState.mk (jobP 1 0) []).job.workers_accepted ≤
        ((JobState.mk (jobP 1 0) []).job.workers_needed : Int)) ∧
    acceptApplication (JobState.mk (jobP 1 1) [⟨7, ApplicationStatus.pending⟩]) 7
      = .error .conflictJobFull ∧
    (JobState.mk (jobP 2 1) [⟨7, ApplicationStatus.accepted⟩]).job.workers_accepted
      = (JobState.mk (jobP 2 0) [⟨7, ApplicationStatus.pending⟩]).job.workers_accepted + 1 ∧
    (JobState.mk (jobP 2 0) [⟨7, ApplicationStatus.withdrawn⟩]).job.workers_accepted
      = (JobState.mk (jobP 2 1) [⟨7, ApplicationStatus.accepted⟩]).job.workers_accepted - 1 :=
  ⟨workers_accepted_bounds.1 (JobState.mk (jobP 1 0) []) (JobState.mk (jobP 1 0) [])
      ⟨rfl, rfl⟩ Relation.ReflTransGen.refl,
   workers_accepted_bounds.2.1 (JobState.mk (jobP 1 1) [⟨7, ApplicationStatus.pending⟩])
      7 ⟨7, ApplicationStatus.pending⟩ rfl rfl rfl,
   workers_accepted_bounds.2.2.1 (JobState.mk (jobP 2 0) [⟨7, ApplicationStatus.pending⟩])
      7 (JobState.mk (jobP 2 1) [⟨7, ApplicationStatus.accepted⟩]) rfl,
   workers_accepted_bounds.2.2.2 (JobState.mk (jobP 2 1) [⟨7, ApplicationStatus.accepted⟩])
      7 ⟨7, ApplicationStatus.accepted⟩
      (JobState.mk (jobP 2 0) [⟨7, ApplicationStatus.withdrawn⟩]) rfl rfl rfl⟩

/-- C5 counterexample: at a published job at full capacity (1 of 1 accepted),
a further `apply_to_job` call by a verified worker (id 8) who has not applied
returns the "Job is already full" conflict error, refuting the claim that
applications are not capacity-gated. -/
theorem apply_at_capacity_cex :
    apply_to_job (JobState.mk (jobP 1 1) [⟨7, ApplicationStatus.accepted⟩]) 8 true
      = .error .conflictJobFull := rfl

/-- **C5 (amended).** For a published job at full capacity, a further apply
call fails with the capacity conflict error (applications ARE capacity-gated
in the code), and accept on any pending application for that job also fails
with the conflict error; after a withdrawal of an accepted application frees
capacity, accept on a pending application succeeds. -/
theorem capacity_gates_apply_and_accept :
    (∀ st w v, st.job.status = JobStatus.published → st.job.is_full = true →
      apply_to_job st w v = .error .conflictJobFull) ∧
    (∀ st w a, findApp st w = some a → a.status = ApplicationStatus.pending →
      st.job.is_full = true →
      acceptApplication st w = .error .conflictJobFull) ∧
    (∀ st wa a st', findApp st wa = some a → a.status = ApplicationStatus.accepted →
      st.job.workers_accepted = (st.job.workers_needed : Int) →
      withdrawApplication st wa = .ok st' →
      st'.job.is_full = false ∧
      ∀ w b, findApp st' w = some b → b.status = ApplicationStatus.pending →
        ∃ st'', acceptApplication st' w = .ok st'') := by
  refine ⟨?_, ?_, ?_⟩
  · intro st w v hpub hfull
    simp [apply_to_job, hpub, hfull]
  · intro st w a hfind hpend hfull
    simp [acceptApplication, hfind, hpend, hfull]
  · intro st wa a st' hfind hacc hcap h
    obtain ⟨b, hfind2, rfl⟩ := withdrawApplication_ok h
    rw [hfind] at hfind2
    obtain rfl : a = b := by injection hfind2
    have hnotfull : (if a.status = ApplicationStatus.accepted then
          { st.job with workers_accepted := st.job.workers_accepted - 1 }
        else st.job).is_full = false := by
      simp only [hacc, if_true, Job.is_full, decide_eq_false_iff_not, not_le]
      omega
    refine ⟨hnotfull, ?_⟩
    intro w b hfindb hpendb
    simp [acceptApplication, hfindb, hpendb, hnotfull]

/-- Witness for C5's amended theorem: at a full published job, a fresh
verified apply and an accept of the pending application both return the
conflict error, and after the accepted worker withdraws, the pending
application can be accepted. -/
theorem capacity_gates_apply_and_accept_witness :
    apply_to_job (JobState.mk (jobP 1 1)
        [⟨7, ApplicationStatus.accepted⟩, ⟨8, ApplicationStatus.pending⟩]) 9 true
      = .error .conflictJobFull ∧
    acceptApplication (JobState.mk (jobP 1 1)
        [⟨7, ApplicationStatus.accepted⟩, ⟨8, ApplicationStatus.pending⟩]) 8
      = .error .conflictJobFull ∧
    ((JobState.mk (jobP 1 0)
        [⟨7, ApplicationStatus.withdrawn⟩, ⟨8, ApplicationStatus.pending⟩]).job.is_full
        = false ∧
      ∀ w b, findApp (JobState.mk (jobP 1 0)
          [⟨7, ApplicationStatus.withdrawn⟩, ⟨8, ApplicationStatus.pending⟩]) w = some b →
        b.status = ApplicationStatus.pending →
        ∃ st'', acceptApplication (JobState.mk (jobP 1 0)
          [⟨7, ApplicationStatus.withdrawn⟩, ⟨8, ApplicationStatus.pending⟩]) w = .ok st'') :=
  ⟨capacity_gates_apply_and_accept.1 (JobState.mk (jobP 1 1)
      [⟨7, ApplicationStatus.accepted⟩, ⟨8, ApplicationStatus.pending⟩]) 9 true rfl rfl,
   capacity_gates_apply_and_accept.2.1 (JobState.mk (jobP 1 1)
      [⟨7, ApplicationStatus.accepted⟩, ⟨8, ApplicationStatus.pending⟩]) 8
      ⟨8, ApplicationStatus.pending⟩ rfl rfl rfl,
   capacity_gates_apply_and_accept.2.2 (JobState.mk (jobP 1 1)
      [⟨7, ApplicationStatus.accepted⟩, ⟨8, ApplicationStatus.pending⟩]) 7
      ⟨7, ApplicationStatus.accepted⟩ (JobState.mk (jobP 1 0)
      [⟨7, ApplicationStatus.withdrawn⟩, ⟨8, ApplicationStatus.pending⟩])
      rfl rfl rfl rfl⟩

/-- **C10.** `withdraw` has no status precondition: on an application in any
status it succeeds, sets the status to withdrawn, and decrements the job's
`workers_accepted` counter exactly when the prior status was accepted. -/
theorem withdraw_any_status (st : JobState) (w : Nat) (a : AppRecord)
    (hfind : findApp st w = some a) :
    ∃ st', withdrawApplication st w = .ok st' ∧
      findApp st' w = some ⟨a.worker, ApplicationStatus.withdrawn⟩ ∧
      st'.job.workers_accepted =
        (if a.status = ApplicationStatus.accepted then st.job.workers_accepted - 1
         else st.job.workers_accepted) ∧
      st'.apps = setAppStatus st.apps w ApplicationStatus.withdrawn := by
  refine ⟨⟨if a.status = ApplicationStatus.accepted then
      { st.job with workers_accepted := st.job.workers_accepted - 1 } else st.job,
    setAppStatus st.apps w ApplicationStatus.withdrawn⟩, ?_, ?_, ?_, rfl⟩
  · simp [withdrawApplication, hfind]
  · exact find?_setAppStatus st.apps w ApplicationStatus.withdrawn a hfind
  · by_cases hacc : a.status = ApplicationStatus.accepted <;> simp [hacc]

/-- Witness for C10: withdrawing an already-rejected application succeeds,
marks it withdrawn, and leaves the counter untouched. -/
theorem withdraw_any_status_witness :
    ∃ st', withdrawApplication
        (JobState.mk (jobP 2 0) [⟨7, ApplicationStatus.rejected⟩]) 7 = .ok st' ∧
      findApp st' 7 = some ⟨7, ApplicationStatus.withdrawn⟩ ∧
      st'.job.workers_accepted =
        (if (AppRecord.mk 7 ApplicationStatus.rejected).status = ApplicationStatus.accepted
         then (JobState.mk (jobP 2 0) [⟨7, ApplicationStatus.rejected⟩]).job.workers_accepted - 1
         else (JobState.mk (jobP 2 0) [⟨7, ApplicationStatus.rejected⟩]).job.workers_accepted) ∧
      st'.apps = setAppStatus (JobState.mk (jobP 2 0)
        [⟨7, ApplicationStatus.rejected⟩]).apps 7 ApplicationStatus.withdrawn :=
  withdraw_any_status (JobState.mk (jobP 2 0) [⟨7, ApplicationStatus.rejected⟩]) 7
    ⟨7, ApplicationStatus.rejected⟩ rfl

/-! ## Payments entities (apps/payments/models.py) -/

/-- The fields of the `Transaction` model the verified operations touch.
The `metadata` JSON bag, `created_at`/`updated_at` stamps are not modelled
(no claim reads them). -/
structure Transaction where
  id : Nat
  jobId : Nat
  business : Nat
  worker : Nat
  amount : ℚ
  platform_fee : ℚ
  worker_payout : ℚ
  status : TransactionStatus
  payment_intent_id : String
  idempotency_key : String
  completed_at : Option Nat
deriving DecidableEq, Repr

/-- `Transaction.calculate_fees`: platform_fee = amount × fee_percentage,
worker_payout = amount − platform_fee. -/
def Transaction.calculate_fees (t : Transaction) (fee_percentage : ℚ) : Transaction :=
  { t with platform_fee := t.amount * fee_percentage,
           worker_payout := t.amount - t.amount * fee_percentage }

/-- The `Escrow` model: 1:1 with Transaction and with JobApplication. -/
structure Escrow where
  id : Nat
  transactionId : Nat
  applicationId : Nat
  held_amount : ℚ
  status : EscrowStatus
  released_at : Option Nat
deriving DecidableEq, Repr

/-- The `Payout` model. -/
structure Payout where
  id : Nat
  transactionId : Nat
  worker : Nat
  amount : ℚ
  status : PayoutStatus
  transfer_id : String
  destination_account : String
  failure_reason : String
  retry_count : Nat
  completed_at : Option Nat
  failed_at : Option Nat
deriving DecidableEq, Repr

/-- Errors raised inside apps/payments; one constructor per `raise` site. -/
inductive PayError
  | notCheckedOut
  | noEscrowForApplication
  | noEscrowForTransaction
  | noTransactionForEscrow
  | noTransactionForPayout
  | escrowAlready (s : EscrowStatus)
  | cannotRefundStatus (s : TransactionStatus)
  | cannotReleaseEscrow (s : EscrowStatus)
  | cannotRefundEscrow (s : EscrowStatus)
  | pspIntentFailed
  | pspCaptureFailed
  | pspRefundFailed
deriving DecidableEq, Repr

/-- `Escrow.release` (apps/payments/models.py): held → released, stamping
`released_at`; raises if the status is not `held`. -/
def Escrow.release (e : Escrow) (now : Nat) : Except PayError Escrow :=
  if e.status ≠ EscrowStatus.held then .error (.cannotReleaseEscrow e.status)
  else .ok { e with status := EscrowStatus.released, released_at := some now }

/-- `Escrow.refund` (apps/payments/models.py): held → refunded, stamping
`released_at`; raises if the status is not `held`. -/
def Escrow.refund (e : Escrow) (now : Nat) : Except PayError Escrow :=
  if e.status ≠ EscrowStatus.held then .error (.cannotRefundEscrow e.status)
  else .ok { e with status := EscrowStatus.refunded, released_at := some now }

/-- `Payout.mark_completed`. -/
def Payout.mark_completed (p : Payout) (now : Nat) : Payout :=
  { p with status := PayoutStatus.completed, completed_at := some now }

/-- `Payout.mark_failed`: sets failed status, stamps `failed_at`, stores the
reason and increments `retry_count`. -/
def Payout.mark_failed (p : Payout) (reason : String) (now : Nat) : Payout :=
  { p with status := PayoutStatus.failed, failed_at := some now,
           failure_reason := reason, retry_count := p.retry_count + 1 }

/-- The durable payments state: the three tables owned by the engine. -/
structure PayState where
  transactions : List Transaction
  escrows : List Escrow
  payouts : List Payout
deriving DecidableEq, Repr

/-- Persist a mutated `Transaction` row (matched by primary key). -/
def updateTransaction (st : PayState) (t : Transaction) : PayState :=
  { st with transactions := st.transactions.map (fun x => if x.id == t.id then t else x) }

/-- Persist a mutated `Escrow` row (matched by primary key). -/
def updateEscrow (st : PayState) (e : Escrow) : PayState :=
  { st with escrows := st.escrows.map (fun x => if x.id == e.id then e else x) }

/-- Persist a mutated `Payout` row (matched by primary key). -/
def updatePayout (st : PayState) (p : Payout) : PayState :=
  { st with payouts := st.payouts.map (fun x => if x.id == p.id then p else x) }

/-- `PaymentService.PLATFORM_FEE_PERCENTAGE` = Decimal('0.10'). -/
def PLATFORM_FEE_PERCENTAGE : ℚ := 1/10

/-- The slice of a `JobApplication` (with its job) that the payment service
reads: `application.id`, `application.worker`, `job.id`, `job.business`,
`job.hourly_rate`, `job.duration_hours`. -/
structure ApplicationRef where
  id : Nat
  worker : Nat
  jobId : Nat
  business : Nat
  hourly_rate : ℚ
  duration_hours : ℚ
deriving DecidableEq, Repr

/-- `PaymentService.create_escrow_for_application` (apps/payments/services.py).
`intentResult` is the outcome of `psp.create_payment_intent` (`some intent_id`
on success, `none` when the PSP call raises, which propagates and — by the
surrounding `transaction.atomic` — rolls everything back).  `tid`/`eid` are
the ids the database assigns to the new rows. -/
def create_escrow_for_application (st : PayState) (app : ApplicationRef)
    (intentResult : Option String) (tid eid : Nat) :
    Except PayError (Transaction × Escrow × PayState) :=
  let estimated_amount := app.hourly_rate * app.duration_hours
  let idempotency_key := "escrow_create_" ++ toString app.id
  match st.transactions.find? (fun t => t.idempotency_key == idempotency_key) with
  | some existing =>
    match st.escrows.find? (fun e => e.transactionId == existing.id) with
    | some escrow => .ok (existing, escrow, st)
    | none => .error .noEscrowForTransaction
  | none =>
    match intentResult with
    | none => .error .pspIntentFailed
    | some intent_id =>
      let trans : Transaction :=
        { id := tid, jobId := app.jobId, business := app.business,
          worker := app.worker, amount := estimated_amount, platform_fee := 0,
          worker_payout := 0, status := TransactionStatus.pending,
          payment_intent_id := intent_id, idempotency_key := idempotency_key,
          completed_at := none }
      let trans := trans.calculate_fees PLATFORM_FEE_PERCENTAGE
      let escrow : Escrow :=
        { id := eid, transactionId := tid, applicationId := app.id,
          held_amount := estimated_amount, status := EscrowStatus.held,
          released_at := none }
      .ok (trans, escrow,
        { st with transactions := trans :: st.transactions,
                  escrows := escrow :: st.escrows })

/-- The `CheckIn` model fields the payment flow reads (timestamps in
fractional hours, so `worked_hours` is the plain difference). -/
structure CheckInRec where
  applicationId : Nat
  checked_in_at : ℚ
  checked_out_at : Option ℚ
deriving DecidableEq, Repr

/-- `CheckIn.is_checked_out`. -/
def CheckInRec.is_checked_out (c : CheckInRec) : Bool :=
  c.checked_out_at.isSome

/-- `CheckIn.worked_hours`: `None` before checkout, else the duration. -/
def CheckInRec.worked_hours (c : CheckInRec) : Option ℚ :=
  match c.checked_out_at with
  | none => none
  | some t => some (t - c.checked_in_at)

/-- `PaymentService._create_payout` (apps/payments/services.py): creates the
Payout row (pending), resolves the destination account with a mock fallback,
calls `psp.create_transfer` (`transferResult` = `some transfer_id` on success,
`none` when the PSP fails or throws); on success sets transfer_id and
processing status, on failure `mark_failed`.  Either way the row is persisted
and returned. -/
def create_payout (st : PayState) (trans : Transaction) (worker : Nat) (amount : ℚ)
    (transferResult : Option String) (payment_account : Option String)
    (pid : Nat) (now : Nat) : Payout × PayState :=
  let destination := payment_account.getD "mock_account"
  let payout : Payout :=
    { id := pid, transactionId := trans.id, worker := worker, amount := amount,
      status := PayoutStatus.pending, transfer_id := "",
      destination_account := destination, failure_reason := "", retry_count := 0,
      completed_at := none, failed_at := none }
  match transferResult with
  | some transfer_id =>
    let payout := { payout with
                    transfer_id := transfer_id,
                    status := PayoutStatus.processing }
    (payout, { st with payouts := payout :: st.payouts })
  | none =>
    let payout := payout.mark_failed "transfer failed" now
    (payout, { st with payouts := payout :: st.payouts })

/-- `PaymentService.release_escrow_after_checkout` (apps/payments/services.py).
`captureOk` is the outcome of `psp.capture_payment`; a capture failure raises,
and `transaction.atomic` rolls back the already-written amount update, so the
error branch returns no state.  The transfer outcome inside `_create_payout`
is `transferResult`. -/
def release_escrow_after_checkout (st : PayState) (checkin : CheckInRec)
    (app : ApplicationRef) (captureOk : Bool) (transferResult : Option String)
    (payment_account : Option String) (pid : Nat) (now : Nat) :
    Except PayError (Payout × PayState) :=
  if ¬ checkin.is_checked_out then .error .notCheckedOut
  else
    match st.escrows.find? (fun e => e.applicationId == app.id) with
    | none => .error .noEscrowForApplication
    | some escrow =>
      if escrow.status ≠ EscrowStatus.held then .error (.escrowAlready escrow.status)
      else
        match st.transactions.find? (fun t => t.id == escrow.transactionId) with
        | none => .error .noTransactionForEscrow
        | some tr =>
          let worked_hours := checkin.worked_hours.getD 0
          let actual_amount := worked_hours * app.hourly_rate
          let tr := { tr with amount := actual_amount }
          let tr := tr.calculate_fees PLATFORM_FEE_PERCENTAGE
          let st := updateTransaction st tr
          if ¬ captureOk then .error .pspCaptureFailed
          else
            let tr := { tr with status := TransactionStatus.held }
            let st := updateTransaction st tr
            let pr := create_payout st tr app.worker tr.worker_payout
              transferResult payment_account pid now
            match Escrow.release escrow now with
            | .error e => .error e
            | .ok escrow' => .ok (pr.1, updateEscrow pr.2 escrow')

/-- `PaymentService.refund_escrow` (apps/payments/services.py): legal only for
a pending/held Transaction with a held Escrow; `refundOk` is the PSP refund
outcome.  On PSP failure the code writes status=failed and re-raises, but the
raise exits the `transaction.atomic` scope, so that write is rolled back — the
error branch therefore returns no state. -/
def refund_escrow (st : PayState) (trans : Transaction) (refundOk : Bool)
    (now : Nat) : Except PayError (Transaction × PayState) :=
  if ¬ (trans.status = TransactionStatus.pending ∨
        trans.status = TransactionStatus.held) then
    .error (.cannotRefundStatus trans.status)
  else
    match st.escrows.find? (fun e => e.transactionId == trans.id) with
    | none => .error .noEscrowForTransaction
    | some escrow =>
      if escrow.status ≠ EscrowStatus.held then .error (.escrowAlready escrow.status)
      else if ¬ refundOk then .error .pspRefundFailed
      else
        let trans' := { trans with status := TransactionStatus.refunded }
        match Escrow.refund escrow now with
        | .error e => .error e
        | .ok escrow' =>
          .ok (trans', updateEscrow (updateTransaction st trans') escrow')

/-- One refund attempt of the cancellation loop: a failure is logged and the
prior state kept (the nested `transaction.atomic` savepoint rolls the attempt
back), the loop continues with the next transaction. -/
def refundStep (refundOk : Nat → Bool) (now : Nat) (s : PayState)
    (t : Transaction) : PayState :=
  match refund_escrow s t (refundOk t.id) now with
  | .ok x => x.2
  | .error _ => s

/-- `JobService.cancel_job` (apps/jobs/services.py): ownership check, status
transition to cancelled, then one independent refund attempt per Transaction
of the job in status pending/held — each failure is logged and skipped
(`refundOk` gives the PSP refund outcome per transaction id). -/
def cancel_job (job : Job) (st : PayState) (cancelled_by : Nat)
    (refundOk : Nat → Bool) (now : Nat) :
    Except JobsError (Job × PayState) :=
  if job.business ≠ cancelled_by then .error .unauthorized
  else
    match job.transition_to JobStatus.cancelled now with
    | .error e => .error e
    | .ok job' =>
      let targets := st.transactions.filter
        (fun t => t.jobId == job.id &&
          (t.status == TransactionStatus.pending ||
           t.status == TransactionStatus.held))
      .ok (job', targets.foldl (refundStep refundOk now) st)

/-- `PaymentService.complete_payout` (apps/payments/services.py): `none` when
the payout id is unknown (logged, returns None); no-op when already completed;
otherwise marks the Payout completed and cascades completed status and
`completed_at` onto the Transaction.  A missing Transaction row (impossible
under foreign-key integrity) would raise, hence the error constructor. -/
def complete_payout (st : PayState) (payout_id : Nat) (now : Nat) :
    Except PayError (Option Payout × PayState) :=
  match st.payouts.find? (fun p => p.id == payout_id) with
  | none => .ok (none, st)
  | some payout =>
    if payout.status = PayoutStatus.completed then .ok (some payout, st)
    else
      let payout' := payout.mark_completed now
      let st' := updatePayout st payout'
      match st'.transactions.find? (fun t => t.id == payout.transactionId) with
      | none => .error .noTransactionForPayout
      | some tr =>
        let tr' := { tr with
                     status := TransactionStatus.completed,
                     completed_at := some now }
        .ok (some payout', updateTransaction st' tr')

/-- `WebhookService._handle_transfer_paid`: find the Payout by transfer id
(unknown ids are logged and discarded) and delegate to `complete_payout`. -/
def handle_transfer_paid (st : PayState) (transfer_id : String) (now : Nat) :
    Except PayError PayState :=
  match st.payouts.find? (fun p => p.transfer_id == transfer_id) with
  | none => .ok st
  | some payout =>
    match complete_payout st payout.id now with
    | .error e => .error e
    | .ok x => .ok x.2

/-- `WebhookService._handle_payment_succeeded`: advance the matching
Transaction pending → held; missing Transaction is caught and logged. -/
def handle_payment_succeeded (st : PayState) (intent_id : String) : PayState :=
  match st.transactions.find? (fun t => t.payment_intent_id == intent_id) with
  | none => st
  | some tr =>
    if tr.status = TransactionStatus.pending then
      updateTransaction st { tr with status := TransactionStatus.held }
    else st

/-- `WebhookService._handle_payment_failed`: mark the matching Transaction
failed; missing Transaction is caught and logged. -/
def handle_payment_failed (st : PayState) (intent_id : String) : PayState :=
  match st.transactions.find? (fun t => t.payment_intent_id == intent_id) with
  | none => st
  | some tr => updateTransaction st { tr with status := TransactionStatus.failed }

/-- `WebhookService._handle_transfer_failed`: `mark_failed` on the matching
Payout; missing Payout is caught and logged. -/
def handle_transfer_failed (st : PayState) (transfer_id : String)
    (reason : String) (now : Nat) : PayState :=
  match st.payouts.find? (fun p => p.transfer_id == transfer_id) with
  | none => st
  | some payout => updatePayout st (payout.mark_failed reason now)

/-- `WebhookService.handle_webhook` (apps/payments/services.py): signature
verification (its boolean outcome is `is_valid`), then routing by event type.
A handler exception yields success=false (only the transfer.paid handler can
raise, and only on a foreign-key violation); an unrecognized type is accepted
and ignored. -/
def handle_webhook (st : PayState) (is_valid : Bool) (event_type : String)
    (obj_id : String) (failure_message : String) (now : Nat) : Bool × PayState :=
  if !is_valid then (false, st)
  else if event_type == "payment_intent.succeeded" then
    (true, handle_payment_succeeded st obj_id)
  else if event_type == "payment_intent.payment_failed" then
    (true, handle_payment_failed st obj_id)
  else if event_type == "transfer.paid" then
    match handle_transfer_paid st obj_id now with
    | .ok st' => (true, st')
    | .error _ => (false, st)
  else if event_type == "transfer.failed" then
    (true, handle_transfer_failed st obj_id failure_message now)
  else (true, st)

/-- `WebhookView.post` (apps/payments/views.py): HTTP 200 when the service
reports success, HTTP 400 otherwise. -/
def webhook_post (st : PayState) (is_valid : Bool) (event_type : String)
    (obj_id : String) (failure_message : String) (now : Nat) : Nat × PayState :=
  let r := handle_webhook st is_valid event_type obj_id failure_message now
  (if r.1 then 200 else 400, r.2)

/-! ### Generic row-update lemmas (shared by the payments proofs) -/

/-- After updating the rows matched by `pr` to `x'`, a `q`-search that used to
find a `pr`-matched row returns `x'` (provided `x'` itself matches `q`). -/
lemma find?_update {α : Type} (l : List α) (q pr : α → Bool) (x x' : α)
    (hfind : l.find? q = some x) (hpx : pr x = true) (hqx' : q x' = true) :
    (l.map (fun y => if pr y then x' else y)).find? q = some x' := by
  induction l with
  | nil => simp at hfind
  | cons b bs ih =>
    rw [List.find?_cons] at hfind
    simp only [List.map_cons]
    rw [List.find?_cons]
    by_cases hqb : q b = true
    · rw [hqb] at hfind
      simp only [cond_true, Option.some.injEq] at hfind
      subst hfind
      have hhead : (if pr b = true then x' else b) = x' := if_pos hpx
      rw [hhead, hqx']
    · have hqbf : q b = false := by simpa using hqb
      rw [hqbf] at hfind
      simp only [cond_false] at hfind
      by_cases hpb : pr b = true
      · have hhead : (if pr b = true then x' else b) = x' := if_pos hpb
        rw [hhead, hqx']
      · have hhead : (if pr b = true then x' else b) = b := if_neg hpb
        rw [hhead, hqbf]
        exact ih hfind

/-- Updating rows matched by `pr` to `x'` does not change a `q`-search when
neither `x'` nor any `pr`-matched row matches `q`. -/
lemma find?_update_frame {α : Type} (l : List α) (q pr : α → Bool) (x' : α)
    (hq' : q x' = false) (hdisj : ∀ y ∈ l, pr y = true → q y = false) :
    (l.map (fun y => if pr y then x' else y)).find? q = l.find? q := by
  induction l with
  | nil => rfl
  | cons b bs ih =>
    simp only [List.map_cons]
    rw [List.find?_cons, List.find?_cons]
    have hdbs : ∀ y ∈ bs, pr y = true → q y = false :=
      fun y hy => hdisj y (List.mem_cons_of_mem b hy)
    by_cases hpb : pr b = true
    · have hhead : (if pr b = true then x' else b) = x' := if_pos hpb
      rw [hhead, hq', hdisj b (List.mem_cons_self b bs) hpb]
      exact ih hdbs
    · have hhead : (if pr b = true then x' else b) = b := if_neg hpb
      rw [hhead]
      cases hqb : q b with
      | true => rfl
      | false => exact ih hdbs

/-! ## C1: idempotent escrow creation -/

/-- **C1.** The idempotency key is `"escrow_create_" ++ application.id`; if no
Transaction with that key exists, the first successful call creates exactly
one Transaction and one Escrow, and every further call (any PSP outcome, any
fresh ids) returns that Transaction and its Escrow with the state unchanged. -/
theorem create_escrow_idempotent (st : PayState) (app : ApplicationRef)
    (intent1 : Option String) (tid eid : Nat) (t : Transaction) (e : Escrow)
    (st1 : PayState)
    (hfresh : st.transactions.find?
      (fun x => x.idempotency_key == "escrow_create_" ++ toString app.id) = none)
    (h1 : create_escrow_for_application st app intent1 tid eid = .ok (t, e, st1)) :
    (∀ intent2 tid2 eid2,
      create_escrow_for_application st1 app intent2 tid2 eid2 = .ok (t, e, st1)) ∧
    t.idempotency_key = "escrow_create_" ++ toString app.id ∧
    (st1.transactions.filter
      (fun x => x.idempotency_key == "escrow_create_" ++ toString app.id)).length
      = 1 ∧
    st1.transactions.length = st.transactions.length + 1 ∧
    st1.escrows.length = st.escrows.length + 1 := by
  simp only [create_escrow_for_application] at h1
  rw [hfresh] at h1
  cases intent1 with
  | none => simp at h1
  | some intent_id =>
    simp only [Except.ok.injEq, Prod.mk.injEq] at h1
    obtain ⟨rfl, rfl, rfl⟩ := h1
    have hkey : ∀ x ∈ st.transactions,
        ¬ (x.idempotency_key == "escrow_create_" ++ toString app.id) = true :=
      List.find?_eq_none.mp hfresh
    refine ⟨?_, rfl, ?_, rfl, rfl⟩
    · intro intent2 tid2 eid2
      simp [create_escrow_for_application, List.find?_cons, Transaction.calculate_fees]
    · rw [List.filter_cons]
      simp only [Transaction.calculate_fees, beq_self_eq_true, if_true]
      have : st.transactions.filter
          (fun x => x.idempotency_key == "escrow_create_" ++ toString app.id) = [] :=
        List.filter_eq_nil_iff.mpr hkey
      simp [this]

/-- Sample rows for the C1 witness: application 5 (worker 2) of job 1 owned
by business 3, hourly rate 100, duration 4 h; the created transaction and
escrow (amounts left as the unevaluated products the code computes). -/
def wApp : ApplicationRef := ApplicationRef.mk 5 2 1 3 100 4

def wTrans : Transaction :=
  Transaction.mk 1 1 3 2 (100 * 4) (100 * 4 * (1/10)) (100 * 4 - 100 * 4 * (1/10))
    TransactionStatus.pending "pi_1" ("escrow_create_" ++ toString (5 : Nat)) none

def wEscrow : Escrow := Escrow.mk 1 1 5 (100 * 4) EscrowStatus.held none

def wSt1 : PayState := PayState.mk [wTrans] [wEscrow] []

/-- Witness for C1: on an empty payments state, the first call creates the
transaction and escrow rows of `wSt1` and any second call returns them with
the state unchanged. -/
theorem create_escrow_idempotent_witness :
    (∀ intent2 tid2 eid2,
      create_escrow_for_application wSt1 wApp intent2 tid2 eid2
        = .ok (wTrans, wEscrow, wSt1)) ∧
    wTrans.idempotency_key = "escrow_create_" ++ toString wApp.id ∧
    (wSt1.transactions.filter
      (fun x => x.idempotency_key == "escrow_create_" ++ toString wApp.id)).length
      = 1 ∧
    wSt1.transactions.length = (PayState.mk [] [] []).transactions.length + 1 ∧
    wSt1.escrows.length = (PayState.mk [] [] []).escrows.length + 1 :=
  create_escrow_idempotent (PayState.mk [] [] []) wApp (some "pi_1") 1 1
    wTrans wEscrow wSt1 rfl rfl

/-! ## C2: escrow release after checkout -/

lemma create_payout_transactions (st : PayState) (tr : Transaction) (w : Nat)
    (amt : ℚ) (tros pa : Option String) (pid now : Nat) :
    (create_payout st tr w amt tros pa pid now).2.transactions = st.transactions := by
  cases tros <;> rfl

lemma create_payout_escrows (st : PayState) (tr : Transaction) (w : Nat)
    (amt : ℚ) (tros pa : Option String) (pid now : Nat) :
    (create_payout st tr w amt tros pa pid now).2.escrows = st.escrows := by
  cases tros <;> rfl

lemma create_payout_payouts (st : PayState) (tr : Transaction) (w : Nat)
    (amt : ℚ) (tros pa : Option String) (pid now : Nat) :
    (create_payout st tr w amt tros pa pid now).2.payouts
      = (create_payout st tr w amt tros pa pid now).1 :: st.payouts := by
  cases tros <;> rfl

lemma create_payout_amount (st : PayState) (tr : Transaction) (w : Nat)
    (amt : ℚ) (tros pa : Option String) (pid now : Nat) :
    (create_payout st tr w amt tros pa pid now).1.amount = amt := by
  cases tros <;> rfl

/-- **C2.** `release_escrow_after_checkout` fails with no mutation when the
check-in is not checked out, when no Escrow exists for the application, or
when the Escrow status is not held; a capture failure also fails with no
mutation (the `transaction.atomic` rollback), leaving the Escrow held.  When
the preconditions hold and capture succeeds it persists amount =
worked_hours × hourly_rate, platform_fee = 10 % of it, worker_payout =
amount − fee, Transaction.status = held, creates exactly one new Payout with
amount = worker_payout (prepended to the payout table), and releases the
Escrow. -/
theorem release_escrow_spec :
    (∀ st checkin app cap tros pa pid now, checkin.is_checked_out = false →
      release_escrow_after_checkout st checkin app cap tros pa pid now
        = .error .notCheckedOut) ∧
    (∀ st checkin app cap tros pa pid now,
      checkin.is_checked_out = true →
      st.escrows.find? (fun e => e.applicationId == app.id) = none →
      release_escrow_after_checkout st checkin app cap tros pa pid now
        = .error .noEscrowForApplication) ∧
    (∀ st checkin app cap tros pa pid now escrow,
      checkin.is_checked_out = true →
      st.escrows.find? (fun e => e.applicationId == app.id) = some escrow →
      escrow.status ≠ EscrowStatus.held →
      release_escrow_after_checkout st checkin app cap tros pa pid now
        = .error (.escrowAlready escrow.status)) ∧
    (∀ st checkin app tros pa pid now escrow tr,
      checkin.is_checked_out = true →
      st.escrows.find? (fun e => e.applicationId == app.id) = some escrow →
      escrow.status = EscrowStatus.held →
      st.transactions.find? (fun x => x.id == escrow.transactionId) = some tr →
      release_escrow_after_checkout st checkin app false tros pa pid now
        = .error .pspCaptureFailed) ∧
    (∀ st checkin app tros pa pid now escrow tr tout,
      checkin.checked_out_at = some tout →
      st.escrows.find? (fun e => e.applicationId == app.id) = some escrow →
      escrow.status = EscrowStatus.held →
      st.transactions.find? (fun x => x.id == escrow.transactionId) = some tr →
      ∃ payout st',
        release_escrow_after_checkout st checkin app true tros pa pid now
          = .ok (payout, st') ∧
        (∃ tr', st'.transactions.find? (fun x => x.id == escrow.transactionId)
            = some tr' ∧
          tr'.amount = (tout - checkin.checked_in_at) * app.hourly_rate ∧
          tr'.platform_fee = tr'.amount * (1/10) ∧
          tr'.worker_payout = tr'.amount - tr'.platform_fee ∧
          tr'.status = TransactionStatus.held ∧
          payout.amount = tr'.worker_payout) ∧
        st'.payouts = payout :: st.payouts ∧
        (∃ escrow', st'.escrows.find? (fun e => e.applicationId == app.id)
            = some escrow' ∧
          escrow'.status = EscrowStatus.released ∧
          escrow'.released_at = some now)) := by
  refine ⟨?_, ?_, ?_, ?_, ?_⟩
  · intro st checkin app cap tros pa pid now hco
    simp [release_escrow_after_checkout, hco]
  · intro st checkin app cap tros pa pid now hco hesc
    simp [release_escrow_after_checkout, hco, hesc]
  · intro st checkin app cap tros pa pid now escrow hco hesc hstat
    simp [release_escrow_after_checkout, hco, hesc, hstat]
  · intro st checkin app tros pa pid now escrow tr hco hesc hstat htr
    simp [release_escrow_after_checkout, hco, hesc, hstat, htr]
  · intro st checkin app tros pa pid now escrow tr tout hout hesc hstat htr
    have hco : checkin.is_checked_out = true := by
      simp [CheckInRec.is_checked_out, hout]
    have hwh : checkin.worked_hours.getD 0 = tout - checkin.checked_in_at := by
      simp [CheckInRec.worked_hours, hout]
    have hqtr : (tr.id == escrow.transactionId) = true := by
      simpa using List.find?_some htr
    have hqesc : (escrow.applicationId == app.id) = true := by
      simpa using List.find?_some hesc
    let tr1 : Transaction := Transaction.calculate_fees
      { tr with amount := (tout - checkin.checked_in_at) * app.hourly_rate }
      PLATFORM_FEE_PERCENTAGE
    let tr2 : Transaction := { tr1 with status := TransactionStatus.held }
    let st2 : PayState := updateTransaction (updateTransaction st tr1) tr2
    let pr := create_payout st2 tr2 app.worker tr2.worker_payout tros pa pid now
    let escrow1 : Escrow := { escrow with
      status := EscrowStatus.released, released_at := some now }
    have hfind1 : (updateTransaction st tr1).transactions.find?
        (fun x => x.id == escrow.transactionId) = some tr1 := by
      refine find?_update st.transactions _ _ tr tr1 htr ?_ ?_
      · show (tr.id == tr1.id) = true
        exact beq_self_eq_true tr.id
      · show (tr1.id == escrow.transactionId) = true
        exact hqtr
    have hfind2 : st2.transactions.find?
        (fun x => x.id == escrow.transactionId) = some tr2 := by
      refine find?_update (updateTransaction st tr1).transactions _ _ tr1 tr2
        hfind1 ?_ ?_
      · show (tr1.id == tr2.id) = true
        exact beq_self_eq_true tr1.id
      · show (tr2.id == escrow.transactionId) = true
        exact hqtr
    refine ⟨pr.1, updateEscrow pr.2 escrow1, ?_, ?_, ?_, ?_⟩
    · simp only [release_escrow_after_checkout, hco, hesc, hstat, htr, hwh,
        Escrow.release]
      norm_num
    · refine ⟨tr2, ?_, rfl, rfl, rfl, rfl, ?_⟩
      · show pr.2.transactions.find? (fun x => x.id == escrow.transactionId)
          = some tr2
        rw [create_payout_transactions]
        exact hfind2
      · exact create_payout_amount st2 tr2 app.worker tr2.worker_payout
          tros pa pid now
    · show pr.2.payouts = pr.1 :: st.payouts
      rw [create_payout_payouts]
      rfl
    · refine ⟨escrow1, ?_, rfl, rfl⟩
      show (pr.2.escrows.map
        (fun x => if x.id == escrow1.id then escrow1 else x)).find?
          (fun e => e.applicationId == app.id) = some escrow1
      rw [create_payout_escrows]
      refine find?_update st.escrows _ _ escrow escrow1 hesc ?_ ?_
      · show (escrow.id == escrow1.id) = true
        exact beq_self_eq_true escrow.id
      · show (escrow1.applicationId == app.id) = true
        exact hqesc

/-- Witness for C2: on the post-creation state `wSt1`, a checked-out check-in
(in at hour 0, out at hour 2) with a successful capture yields a payout of the
recomputed worker share, transaction held with recomputed amounts, exactly one
new payout, and a released escrow. -/
theorem release_escrow_spec_witness :
    ∃ payout st',
      release_escrow_after_checkout wSt1 (CheckInRec.mk 5 0 (some 2)) wApp true
          (some "tr_1") (some "acct_9") 1 7 = .ok (payout, st') ∧
      (∃ tr', st'.transactions.find? (fun x => x.id == wEscrow.transactionId)
          = some tr' ∧
        tr'.amount = (2 - (CheckInRec.mk 5 0 (some 2)).checked_in_at)
          * wApp.hourly_rate ∧
        tr'.platform_fee = tr'.amount * (1/10) ∧
        tr'.worker_payout = tr'.amount - tr'.platform_fee ∧
        tr'.status = TransactionStatus.held ∧
        payout.amount = tr'.worker_payout) ∧
      st'.payouts = payout :: wSt1.payouts ∧
      (∃ escrow', st'.escrows.find? (fun e => e.applicationId == wApp.id)
          = some escrow' ∧
        escrow'.status = EscrowStatus.released ∧
        escrow'.released_at = some 7) :=
  release_escrow_spec.2.2.2.2 wSt1 (CheckInRec.mk 5 0 (some 2)) wApp (some "tr_1")
    (some "acct_9") 1 7 wEscrow wTrans 2 rfl rfl rfl rfl

/-! ## C9: idempotent payout completion via transfer.paid -/

/-- **C9.** Processing the same `transfer.paid` event (same transfer id) twice
results in exactly one completion: the first call marks the referenced Payout
completed and cascades completed status and `completed_at` onto its
Transaction; the second call is a no-op returning the same state. -/
theorem transfer_paid_idempotent (st : PayState) (tid : String) (now now2 : Nat)
    (p : Payout) (tr : Transaction)
    (hfindp : st.payouts.find? (fun x => x.transfer_id == tid) = some p)
    (hfindid : st.payouts.find? (fun x => x.id == p.id) = some p)
    (hnotdone : ¬ p.status = PayoutStatus.completed)
    (hfindt : st.transactions.find? (fun x => x.id == p.transactionId) = some tr) :
    ∃ st', handle_transfer_paid st tid now = .ok st' ∧
      st'.payouts.find? (fun x => x.transfer_id == tid)
        = some (p.mark_completed now) ∧
      (p.mark_completed now).status = PayoutStatus.completed ∧
      st'.transactions.find? (fun x => x.id == p.transactionId)
        = some { tr with
                 status := TransactionStatus.completed,
                 completed_at := some now } ∧
      handle_transfer_paid st' tid now2 = .ok st' := by
  let p1 := p.mark_completed now
  let st1 := updatePayout st p1
  let tr1 : Transaction := { tr with
    status := TransactionStatus.completed, completed_at := some now }
  let stf := updateTransaction st1 tr1
  have hq_trid : (tr.id == p.transactionId) = true := by
    simpa using List.find?_some hfindt
  have hfp1 : stf.payouts.find? (fun x => x.transfer_id == tid) = some p1 := by
    refine find?_update st.payouts _ _ p p1 hfindp ?_ ?_
    · show (p.id == p1.id) = true
      exact beq_self_eq_true p.id
    · show (p1.transfer_id == tid) = true
      simpa using List.find?_some hfindp
  have hfpid : stf.payouts.find? (fun x => x.id == p1.id) = some p1 := by
    refine find?_update st.payouts _ _ p p1 hfindid ?_ ?_
    · show (p.id == p1.id) = true
      exact beq_self_eq_true p.id
    · show (p1.id == p1.id) = true
      exact beq_self_eq_true p1.id
  have htr1 : stf.transactions.find? (fun x => x.id == p.transactionId)
      = some tr1 := by
    refine find?_update st.transactions _ _ tr tr1 hfindt ?_ ?_
    · show (tr.id == tr1.id) = true
      exact beq_self_eq_true tr.id
    · show (tr1.id == p.transactionId) = true
      exact hq_trid
  have hrun : handle_transfer_paid st tid now = .ok stf := by
    simp only [handle_transfer_paid, hfindp, complete_payout, hfindid, hnotdone,
      if_false]
    simp only [updatePayout, hfindt]
    rfl
  refine ⟨stf, hrun, hfp1, rfl, htr1, ?_⟩
  simp only [handle_transfer_paid, hfp1, complete_payout, hfpid]
  rfl

/-- Witness for C9 at a concrete state: one processing payout with transfer id
"tr_1" completes once, and the replay is a no-op. -/
theorem transfer_paid_idempotent_witness :
    ∃ st', handle_transfer_paid
        (PayState.mk [wTrans] [wEscrow]
          [Payout.mk 3 1 2 360 PayoutStatus.processing "tr_1" "acct_9" "" 0
            none none]) "tr_1" 7 = .ok st' ∧
      st'.payouts.find? (fun x => x.transfer_id == "tr_1")
        = some ((Payout.mk 3 1 2 360 PayoutStatus.processing "tr_1" "acct_9" ""
            0 none none).mark_completed 7) ∧
      ((Payout.mk 3 1 2 360 PayoutStatus.processing "tr_1" "acct_9" "" 0
          none none).mark_completed 7).status = PayoutStatus.completed ∧
      st'.transactions.find? (fun x => x.id
          == (Payout.mk 3 1 2 360 PayoutStatus.processing "tr_1" "acct_9" "" 0
            none none).transactionId)
        = some { wTrans with
                 status := TransactionStatus.completed,
                 completed_at := some 7 } ∧
      handle_transfer_paid st' "tr_1" 8 = .ok st' :=
  transfer_paid_idempotent
    (PayState.mk [wTrans] [wEscrow]
      [Payout.mk 3 1 2 360 PayoutStatus.processing "tr_1" "acct_9" "" 0
        none none]) "tr_1" 7 8
    (Payout.mk 3 1 2 360 PayoutStatus.processing "tr_1" "acct_9" "" 0 none none)
    wTrans rfl rfl (by simp) rfl

/-! ## C7: webhook endpoint behaviour -/

/-- If every Payout row references an existing Transaction row (foreign-key
integrity), `_handle_transfer_paid` never raises. -/
lemma handle_transfer_paid_ok (st : PayState) (obj : String) (now : Nat)
    (hfk : ∀ p ∈ st.payouts, ∃ tr ∈ st.transactions, tr.id = p.transactionId) :
    ∃ st', handle_transfer_paid st obj now = .ok st' := by
  cases hfp : st.payouts.find? (fun p => p.transfer_id == obj) with
  | none => exact ⟨st, by simp [handle_transfer_paid, hfp]⟩
  | some p =>
    cases hfid : st.payouts.find? (fun x => x.id == p.id) with
    | none =>
      exact ⟨st, by simp [handle_transfer_paid, hfp, complete_payout, hfid]⟩
    | some q =>
      by_cases hdone : q.status = PayoutStatus.completed
      · exact ⟨st, by
          simp [handle_transfer_paid, hfp, complete_payout, hfid, hdone]⟩
      · have hqmem := List.mem_of_find?_eq_some hfid
        obtain ⟨tr, htrmem, htrid⟩ := hfk q hqmem
        cases hft : st.transactions.find? (fun t => t.id == q.transactionId) with
        | none =>
          have hsome : (st.transactions.find?
              (fun t => t.id == q.transactionId)).isSome = true := by
            rw [List.find?_isSome]
            exact ⟨tr, htrmem, by simp [htrid]⟩
          rw [hft] at hsome
          simp at hsome
        | some tr2 =>
          cases hres : handle_transfer_paid st obj now with
          | ok s => exact ⟨s, rfl⟩
          | error e =>
            simp [handle_transfer_paid, hfp, complete_payout, hfid, hdone,
              updatePayout, hft] at hres

/-- **C7.** The webhook endpoint: with an invalid signature it answers HTTP
400 and mutates nothing; with a valid signature it answers HTTP 200 whatever
the routing outcome (given foreign-key integrity of the payout table, the one
raise-able handler cannot raise); an unrecognized event type is accepted and
ignored — HTTP 200 and no mutation. -/
theorem webhook_post_spec :
    (∀ st ev obj fm now, webhook_post st false ev obj fm now = (400, st)) ∧
    (∀ st ev obj fm now,
      (∀ p ∈ st.payouts, ∃ tr ∈ st.transactions, tr.id = p.transactionId) →
      (webhook_post st true ev obj fm now).1 = 200) ∧
    (∀ st ev obj fm now,
      ev ≠ "payment_intent.succeeded" → ev ≠ "payment_intent.payment_failed" →
      ev ≠ "transfer.paid" → ev ≠ "transfer.failed" →
      webhook_post st true ev obj fm now = (200, st)) := by
  refine ⟨?_, ?_, ?_⟩
  · intro st ev obj fm now
    simp [webhook_post, handle_webhook]
  · intro st ev obj fm now hfk
    obtain ⟨st', hst'⟩ := handle_transfer_paid_ok st obj now hfk
    by_cases h1 : (ev == "payment_intent.succeeded") = true <;>
      by_cases h2 : (ev == "payment_intent.payment_failed") = true <;>
        by_cases h3 : (ev == "transfer.paid") = true <;>
          by_cases h4 : (ev == "transfer.failed") = true <;>
            simp [webhook_post, handle_webhook, h1, h2, h3, h4, hst']
  · intro st ev obj fm now h1 h2 h3 h4
    simp [webhook_post, handle_webhook, h1, h2, h3, h4]

/-- Witness for C7: a validly signed payload over the concrete post-release
state answers 200 under foreign-key integrity. -/
theorem webhook_post_spec_witness :
    (webhook_post (PayState.mk [wTrans] [wEscrow] []) true "transfer.paid"
      "tr_1" "" 7).1 = 200 :=
  webhook_post_spec.2.1 (PayState.mk [wTrans] [wEscrow] []) "transfer.paid"
    "tr_1" "" 7 (by simp)

/-! ## C8: cancellation with independent refunds -/

/-- Inversion of a successful `refund_escrow` run. -/
lemma refund_escrow_ok {s : PayState} {u : Transaction} {rok : Bool} {now : Nat}
    {out : Transaction × PayState}
    (h : refund_escrow s u rok now = .ok out) :
    ∃ esc, s.escrows.find? (fun e => e.transactionId == u.id) = some esc ∧
      esc.status = EscrowStatus.held ∧
      (u.status = TransactionStatus.pending ∨
        u.status = TransactionStatus.held) ∧
      rok = true ∧
      out = ({ u with status := TransactionStatus.refunded },
        updateEscrow
          (updateTransaction s { u with status := TransactionStatus.refunded })
          { esc with
            status := EscrowStatus.refunded,
            released_at := some now }) := by
  unfold refund_escrow at h
  split at h
  next hstat => simp at h
  next hstat =>
  split at h
  next hfind => simp at h
  next esc hfind =>
  split at h
  next heh => simp at h
  next heh =>
  split at h
  next hrok => simp at h
  next hrok =>
  rw [show Escrow.refund esc now = .ok { esc with
      status := EscrowStatus.refunded,
      released_at := some now } from by
      unfold Escrow.refund
      rw [if_neg (by simp [not_not.mp heh])]] at h
  simp only [Except.ok.injEq] at h
  exact ⟨esc, hfind, not_not.mp heh, not_not.mp hstat, by simpa using hrok, h.symm⟩

/-- If keys are preserved by the replacement, a row update keeps the key map. -/
lemma map_key_update {α β : Type} (l : List α) (key : α → β) (pr : α → Bool)
    (x' : α) (h : ∀ y ∈ l, pr y = true → key x' = key y) :
    (l.map (fun y => if pr y then x' else y)).map key = l.map key := by
  induction l with
  | nil => rfl
  | cons b bs ih =>
    simp only [List.map_cons]
    refine congrArg₂ _ ?_ (ih (fun y hy => h y (List.mem_cons_of_mem b hy)))
    by_cases hpb : pr b = true
    · rw [if_pos hpb]
      exact h b (List.mem_cons_self b bs) hpb
    · rw [if_neg hpb]

/-- With pairwise-distinct keys, a member is what `find?` by its key returns. -/
lemma mem_find?_key {α : Type} (l : List α) (key : α → Nat) (t : α) (c : Nat)
    (hnd : (l.map key).Nodup) (hmem : t ∈ l) (hkey : key t = c) :
    l.find? (fun x => key x == c) = some t := by
  induction l with
  | nil => cases hmem
  | cons b bs ih =>
    rw [List.find?_cons]
    simp only [List.map_cons, List.nodup_cons] at hnd
    rcases List.mem_cons.mp hmem with rfl | hmem'
    · have : (key t == c) = true := by simp [hkey]
      rw [this]
    · have hbc : (key b == c) = false := by
        have hin : c ∈ bs.map key := hkey ▸ List.mem_map_of_mem key hmem'
        have : key b ≠ c := fun hbc => hnd.1 (hbc ▸ hin)
        simp [this]
      rw [hbc]
      exact ih hnd.2 hmem'

/-- A refund step never changes the escrow-id map (nor, with distinct escrow
ids, the pairing of escrow ids with transaction ids). -/
lemma refundStep_escrow_ids (f : Nat → Bool) (now : Nat) (s : PayState)
    (u : Transaction) :
    (refundStep f now s u).escrows.map (fun e => e.id)
      = s.escrows.map (fun e => e.id) := by
  unfold refundStep
  cases hres : refund_escrow s u (f u.id) now with
  | error e => rfl
  | ok out =>
    obtain ⟨esc, hfind, _, _, _, rfl⟩ := refund_escrow_ok hres
    show ((updateTransaction s _).escrows.map _).map _ = _
    refine map_key_update _ _ _ _ (fun y hy hpy => ?_)
    have : y.id = esc.id := by simpa using hpy
    simpa using this.symm

/-- Frame: a refund step for transaction `u` leaves the transaction row and
the escrow row of any other transaction id untouched. -/
lemma refundStep_frame (f : Nat → Bool) (now : Nat) (s : PayState)
    (u : Transaction) (tid : Nat) (hne : u.id ≠ tid)
    (hnd : (s.escrows.map (fun e => e.id)).Nodup) :
    (refundStep f now s u).transactions.find? (fun x => x.id == tid)
      = s.transactions.find? (fun x => x.id == tid) ∧
    (refundStep f now s u).escrows.find? (fun e => e.transactionId == tid)
      = s.escrows.find? (fun e => e.transactionId == tid) := by
  unfold refundStep
  cases hres : refund_escrow s u (f u.id) now with
  | error e => exact ⟨rfl, rfl⟩
  | ok out =>
    obtain ⟨esc, hfind, _, _, _, rfl⟩ := refund_escrow_ok hres
    have hesc_tid : esc.transactionId = u.id := by
      simpa using List.find?_some hfind
    constructor
    · show ((updateTransaction s _).transactions).find? _ = _
      refine find?_update_frame _ _ _ _ ?_ ?_
      · show ((u.id : Nat) == tid) = false
        simp [hne]
      · intro y hy hpy
        have : y.id = u.id := by simpa using hpy
        simp [this, hne]
    · show ((updateTransaction s _).escrows.map _).find? _ = _
      refine find?_update_frame _ _ _ _ ?_ ?_
      · show ((esc.transactionId : Nat) == tid) = false
        simp [hesc_tid, hne]
      · intro y hy hpy
        have hyid : y.id = esc.id := by simpa using hpy
        have hmem := List.mem_of_find?_eq_some hfind
        have : y = esc := List.inj_on_of_nodup_map hnd hy hmem hyid
        subst this
        simp [hesc_tid, hne]

/-- Frame over the whole refund loop. -/
lemma foldl_refund_frame (f : Nat → Bool) (now : Nat) :
    ∀ (ts : List Transaction) (s : PayState) (tid : Nat),
      (∀ u ∈ ts, u.id ≠ tid) →
      ((s.escrows.map (fun e => e.id)).Nodup) →
      (ts.foldl (refundStep f now) s).transactions.find? (fun x => x.id == tid)
        = s.transactions.find? (fun x => x.id == tid) ∧
      (ts.foldl (refundStep f now) s).escrows.find?
          (fun e => e.transactionId == tid)
        = s.escrows.find? (fun e => e.transactionId == tid) := by
  intro ts
  induction ts with
  | nil => intro s tid _ _; exact ⟨rfl, rfl⟩
  | cons u us ih =>
    intro s tid hne hnd
    simp only [List.foldl_cons]
    have h1 := refundStep_frame f now s u tid (hne u (List.mem_cons_self u us)) hnd
    have hnd' : ((refundStep f now s u).escrows.map (fun e => e.id)).Nodup := by
      rw [refundStep_escrow_ids]; exact hnd
    have h2 := ih (refundStep f now s u) tid
      (fun v hv => hne v (List.mem_cons_of_mem u hv)) hnd'
    exact ⟨h2.1.trans h1.1, h2.2.trans h1.2⟩

/-- A refund step on `t` itself, with a held escrow and a successful PSP
refund, marks t refunded and its escrow refunded. -/
lemma refundStep_hit (f : Nat → Bool) (now : Nat) (s : PayState)
    (t : Transaction) (esc : Escrow)
    (hstat : t.status = TransactionStatus.pending ∨
      t.status = TransactionStatus.held)
    (hok : f t.id = true)
    (hft : s.transactions.find? (fun x => x.id == t.id) = some t)
    (hfe : s.escrows.find? (fun e => e.transactionId == t.id) = some esc)
    (hheld : esc.status = EscrowStatus.held) :
    (refundStep f now s t).transactions.find? (fun x => x.id == t.id)
      = some { t with status := TransactionStatus.refunded } ∧
    (refundStep f now s t).escrows.find? (fun e => e.transactionId == t.id)
      = some { esc with
               status := EscrowStatus.refunded, released_at := some now } := by
  have hrun : refund_escrow s t (f t.id) now = .ok
      ({ t with status := TransactionStatus.refunded },
       updateEscrow
         (updateTransaction s { t with status := TransactionStatus.refunded })
         { esc with
           status := EscrowStatus.refunded, released_at := some now }) := by
    rcases hstat with h | h <;>
      simp [refund_escrow, hfe, hok, Escrow.refund, hheld, h]
  unfold refundStep
  rw [hrun]
  constructor
  · show ((updateTransaction s _).transactions).find? _ = some _
    refine find?_update s.transactions _ _ t _ hft ?_ ?_
    · show ((t.id : Nat) == t.id) = true
      exact beq_self_eq_true t.id
    · show ((t.id : Nat) == t.id) = true
      exact beq_self_eq_true t.id
  · show ((updateTransaction s _).escrows.map _).find? _ = some _
    refine find?_update s.escrows _ _ esc _ hfe ?_ ?_
    · show ((esc.id : Nat) == esc.id) = true
      exact beq_self_eq_true esc.id
    · show ((esc.transactionId : Nat) == t.id) = true
      simpa using List.find?_some hfe

/-- The whole refund loop marks `t` and its escrow refunded, independently of
whether the other refund attempts succeed. -/
lemma foldl_refund_hit (f : Nat → Bool) (now : Nat) :
    ∀ (ts : List Transaction) (s : PayState) (t : Transaction) (esc : Escrow),
      (ts.map (fun x => x.id)).Nodup →
      (s.escrows.map (fun e => e.id)).Nodup →
      t ∈ ts →
      (t.status = TransactionStatus.pending ∨
        t.status = TransactionStatus.held) →
      f t.id = true →
      s.transactions.find? (fun x => x.id == t.id) = some t →
      s.escrows.find? (fun e => e.transactionId == t.id) = some esc →
      esc.status = EscrowStatus.held →
      (ts.foldl (refundStep f now) s).transactions.find? (fun x => x.id == t.id)
        = some { t with status := TransactionStatus.refunded } ∧
      (ts.foldl (refundStep f now) s).escrows.find?
          (fun e => e.transactionId == t.id)
        = some { esc with
                 status := EscrowStatus.refunded, released_at := some now } := by
  intro ts
  induction ts with
  | nil => intro s t esc _ _ hmem; cases hmem
  | cons u us ih =>
    intro s t esc hndts hnd hmem hstat hok hft hfe hheld
    simp only [List.foldl_cons]
    simp only [List.map_cons, List.nodup_cons] at hndts
    rcases List.mem_cons.mp hmem with rfl | hmem'
    · have hhit := refundStep_hit f now s t esc hstat hok hft hfe hheld
      have hnd' : ((refundStep f now s t).escrows.map (fun e => e.id)).Nodup := by
        rw [refundStep_escrow_ids]; exact hnd
      have hfr := foldl_refund_frame f now us (refundStep f now s t) t.id
        (fun v hv hne => hndts.1 (hne ▸ List.mem_map_of_mem (fun x => x.id) hv))
        hnd'
      exact ⟨hfr.1.trans hhit.1, hfr.2.trans hhit.2⟩
    · have hune : u.id ≠ t.id := fun heq =>
        hndts.1 (heq ▸ List.mem_map_of_mem (fun x => x.id) hmem')
      have hfr := refundStep_frame f now s u t.id hune hnd
      have hnd' : ((refundStep f now s u).escrows.map (fun e => e.id)).Nodup := by
        rw [refundStep_escrow_ids]; exact hnd
      exact ih (refundStep f now s u) t esc hndts.2 hnd' hmem' hstat hok
        (hfr.1.trans hft) (hfr.2.trans hfe) hheld

/-- **C8.** `cancel_job` by the owning business of a job in a cancellable
status cancels the job; every pending/held Transaction of the job gets an
independent refund attempt (one attempt's failure aborts nothing else): every
such transaction whose escrow is held and whose PSP refund succeeds ends up
refunded with its escrow refunded; and a second cancel fails with the
invalid-transition error because cancelled is terminal. -/
theorem cancel_job_spec :
    (∀ job st u f now, job.business = u →
      job.can_transition_to JobStatus.cancelled = true →
      ∃ job' st', cancel_job job st u f now = .ok (job', st') ∧
        job'.status = JobStatus.cancelled) ∧
    (∀ job st u f now job' st' t esc,
      cancel_job job st u f now = .ok (job', st') →
      (st.transactions.map (fun x => x.id)).Nodup →
      (st.escrows.map (fun e => e.id)).Nodup →
      t ∈ st.transactions → t.jobId = job.id →
      (t.status = TransactionStatus.pending ∨
        t.status = TransactionStatus.held) →
      st.escrows.find? (fun e => e.transactionId == t.id) = some esc →
      esc.status = EscrowStatus.held →
      f t.id = true →
      st'.transactions.find? (fun x => x.id == t.id)
        = some { t with status := TransactionStatus.refunded } ∧
      st'.escrows.find? (fun e => e.transactionId == t.id)
        = some { esc with
                 status := EscrowStatus.refunded, released_at := some now }) ∧
    (∀ job st u f now, job.status = JobStatus.cancelled → job.business = u →
      cancel_job job st u f now
        = .error (.invalidTransition JobStatus.cancelled JobStatus.cancelled)) := by
  refine ⟨?_, ?_, ?_⟩
  · intro job st u f now hb hc
    have htrans : job.transition_to JobStatus.cancelled now
        = .ok { job with status := JobStatus.cancelled } := by
      unfold Job.transition_to
      rw [if_neg (not_not.mpr hc)]
      simp
    have hrun : cancel_job job st u f now = .ok
        ({ job with status := JobStatus.cancelled },
         (st.transactions.filter
           (fun t => t.jobId == job.id &&
             (t.status == TransactionStatus.pending ||
              t.status == TransactionStatus.held))).foldl
           (refundStep f now) st) := by
      simp only [cancel_job]
      rw [if_neg (by simp [hb]), htrans]
    exact ⟨_, _, hrun, rfl⟩
  · intro job st u f now job' st' t esc hrun hndt hnde hmem hjob hstat hfe
      hheld hok
    unfold cancel_job at hrun
    split at hrun
    next => simp at hrun
    next hb =>
    split at hrun
    next e htr => simp at hrun
    next j htr =>
    simp only [Except.ok.injEq, Prod.mk.injEq] at hrun
    obtain ⟨rfl, rfl⟩ := hrun
    have hndtargets : ((st.transactions.filter
        (fun t => t.jobId == job.id &&
          (t.status == TransactionStatus.pending ||
           t.status == TransactionStatus.held))).map (fun x => x.id)).Nodup :=
      hndt.sublist ((List.filter_sublist st.transactions).map (fun x => x.id))
    have hmemt : t ∈ st.transactions.filter
        (fun t => t.jobId == job.id &&
          (t.status == TransactionStatus.pending ||
           t.status == TransactionStatus.held)) := by
      refine List.mem_filter.mpr ⟨hmem, ?_⟩
      rcases hstat with h | h <;> simp [hjob, h]
    have hft : st.transactions.find? (fun x => x.id == t.id) = some t :=
      mem_find?_key st.transactions (fun x => x.id) t t.id hndt hmem rfl
    exact foldl_refund_hit f now _ st t esc hndtargets hnde hmemt hstat hok
      hft hfe hheld
  · intro job st u f now hs hb
    simp only [cancel_job]
    rw [if_neg (by simp [hb])]
    rw [show job.transition_to JobStatus.cancelled now = .error
        (.invalidTransition JobStatus.cancelled JobStatus.cancelled) from by
      unfold Job.transition_to
      rw [if_pos (by simp [Job.can_transition_to, hs])]
      rw [hs]]

/-- Witness for C8 at a concrete state: business 3 cancels published job 1
with one pending transaction and a held escrow; after the cancel the
transaction is refunded and the escrow refunded. -/
theorem cancel_job_spec_witness :
    (PayState.mk [{ wTrans with status := TransactionStatus.refunded }]
        [{ wEscrow with
           status := EscrowStatus.refunded, released_at := some 9 }]
        []).transactions.find? (fun x => x.id == wTrans.id)
      = some { wTrans with status := TransactionStatus.refunded } ∧
    (PayState.mk [{ wTrans with status := TransactionStatus.refunded }]
        [{ wEscrow with
           status := EscrowStatus.refunded, released_at := some 9 }]
        []).escrows.find? (fun e => e.transactionId == wTrans.id)
      = some { wEscrow with
               status := EscrowStatus.refunded, released_at := some 9 } :=
  cancel_job_spec.2.1 (Job.mk 1 3 100 1 1 0 0 JobStatus.published none) wSt1 3
    (fun x => true) 9 { (Job.mk 1 3 100 1 1 0 0 JobStatus.published none) with
      status := JobStatus.cancelled }
    (PayState.mk [{ wTrans with status := TransactionStatus.refunded }]
      [{ wEscrow with
         status := EscrowStatus.refunded, released_at := some 9 }]
      [])
    wTrans wEscrow rfl (by simp [wSt1]) (by simp [wSt1]) (by simp [wSt1])
    rfl (Or.inl rfl)
    rfl rfl rfl

/-! ## C6: geolocation gate on check-in (core/utils/geo.py,
apps/jobs/services.py `CheckInService.check_in`).  The Python floats are
modelled as real numbers, which is what the haversine formula the spec
describes denotes. -/

/-- `math.radians`. -/
noncomputable def radians (d : ℝ) : ℝ := d * Real.pi / 180

/-- `haversine_distance` (core/utils/geo.py): great-circle distance in km,
Earth radius 6371. -/
noncomputable def haversine_distance (lat1 lon1 lat2 lon2 : ℝ) : ℝ :=
  let R : ℝ := 6371.0
  let lat1_rad := radians lat1
  let lon1_rad := radians lon1
  let lat2_rad := radians lat2
  let lon2_rad := radians lon2
  let dlat := lat2_rad - lat1_rad
  let dlon := lon2_rad - lon1_rad
  let a := Real.sin (dlat / 2) ^ 2 +
    Real.cos lat1_rad * Real.cos lat2_rad * Real.sin (dlon / 2) ^ 2
  let c := 2 * Real.arcsin (Real.sqrt a)
  R * c

/-- `CheckInService.MAX_CHECKIN_DISTANCE_KM` = 0.1 (100 m). -/
noncomputable def MAX_CHECKIN_DISTANCE_KM : ℝ := 0.1

/-- Errors raised by `CheckInService.check_in`, one per `raise` site. -/
inductive CheckInError
  | notAccepted
  | alreadyCheckedIn
  | invalidCoordinates
  | tooFar
deriving DecidableEq, Repr

/-- The `CheckIn` row created by a successful check-in. -/
structure GeoCheckIn where
  applicationId : Nat
  checked_in_at : Nat
  check_in_lat : ℝ
  check_in_lng : ℝ

open Classical in
/-- `CheckInService.check_in` (apps/jobs/services.py): requires an accepted
application with no existing CheckIn, valid coordinates, and the point within
`MAX_CHECKIN_DISTANCE_KM` of the job location (haversine); creates the
CheckIn and starts the job if it was still published.  The error branches
create nothing. -/
noncomputable def check_in (appStatus : ApplicationStatus) (hasCheckin : Bool)
    (jobLat jobLng : ℝ) (jobStatus : JobStatus) (appId : Nat) (lat lng : ℝ)
    (now : Nat) : Except CheckInError (GeoCheckIn × JobStatus) :=
  if appStatus ≠ ApplicationStatus.accepted then .error .notAccepted
  else if hasCheckin then .error .alreadyCheckedIn
  else if ¬ (-90 ≤ lat ∧ lat ≤ 90 ∧ -180 ≤ lng ∧ lng ≤ 180) then
    .error .invalidCoordinates
  else if haversine_distance lat lng jobLat jobLng > MAX_CHECKIN_DISTANCE_KM then
    .error .tooFar
  else
    .ok (⟨appId, now, lat, lng⟩,
      if jobStatus = JobStatus.published then JobStatus.in_progress
      else jobStatus)

/-- The distance between a point and itself is zero. -/
lemma haversine_self (a b : ℝ) : haversine_distance a b a b = 0 := by
  unfold haversine_distance
  simp [Real.arcsin_zero]

/-- For a pure northward latitude offset `d ∈ [0, 180]` from the origin, the
haversine distance is exactly `6371 · radians d`. -/
lemma haversine_lat_offset (d : ℝ) (h0 : 0 ≤ d) (h1 : d ≤ 180) :
    haversine_distance d 0 0 0 = 6371 * radians d := by
  have hpi := Real.pi_pos
  have hx0 : 0 ≤ d * Real.pi / 180 / 2 := by positivity
  have hx2 : d * Real.pi / 180 / 2 ≤ Real.pi / 2 := by
    rw [div_le_div_iff₀ (by norm_num) (by norm_num)]
    nlinarith
  have hsinpos : 0 ≤ Real.sin (d * Real.pi / 180 / 2) :=
    Real.sin_nonneg_of_nonneg_of_le_pi hx0 (hx2.trans (by nlinarith))
  simp only [haversine_distance, radians]
  rw [show (0 * Real.pi / 180 - d * Real.pi / 180) / 2
      = -(d * Real.pi / 180 / 2) by ring]
  rw [show (0 * Real.pi / 180 - 0 * Real.pi / 180) / 2 = (0 : ℝ) by ring]
  rw [Real.sin_neg, Real.sin_zero]
  rw [show (0 : ℝ) * Real.pi / 180 = 0 by ring, Real.cos_zero]
  rw [show (-Real.sin (d * Real.pi / 180 / 2)) ^ 2 +
      Real.cos (d * Real.pi / 180) * 1 * 0 ^ 2
      = Real.sin (d * Real.pi / 180 / 2) ^ 2 by ring]
  rw [Real.sqrt_sq_eq_abs, abs_of_nonneg hsinpos,
    Real.arcsin_sin (by linarith) hx2]
  ring

/-- Numeric bound: the 0.00091° point is farther than 0.1 km. -/
lemma point_101m_far : haversine_distance (91/100000) 0 0 0 > 0.1 := by
  rw [haversine_lat_offset (91/100000) (by norm_num) (by norm_num)]
  unfold radians
  have := Real.pi_gt_d6
  nlinarith

/-- Numeric bound: the 0.00089° point is within 0.1 km. -/
lemma point_99m_near : haversine_distance (89/100000) 0 0 0 ≤ 0.1 := by
  rw [haversine_lat_offset (89/100000) (by norm_num) (by norm_num)]
  unfold radians
  have := Real.pi_lt_d6
  nlinarith

/-- **C6.** On an accepted, not-yet-checked-in application with valid
coordinates, `check_in` fails with `tooFar` iff the haversine distance (Earth
radius 6371 km) to the job location exceeds 0.1 km; check-in at exactly the
job's coordinates succeeds; the spec's ~0.00091° latitude-offset point
(≈ 101 m) fails with `tooFar`; the 0.00089° point (≈ 99 m) succeeds.  An
error branch creates no CheckIn (it returns no row). -/
theorem check_in_toofar_spec :
    (∀ hasCheckin jobLat jobLng jobStatus appId lat lng now,
      hasCheckin = false →
      -90 ≤ lat → lat ≤ 90 → -180 ≤ lng → lng ≤ 180 →
      (check_in ApplicationStatus.accepted hasCheckin jobLat jobLng jobStatus
          appId lat lng now = .error .tooFar ↔
        haversine_distance lat lng jobLat jobLng > 0.1)) ∧
    (∀ jobStatus appId a b now, -90 ≤ a → a ≤ 90 → -180 ≤ b → b ≤ 180 →
      ∃ c, check_in ApplicationStatus.accepted false a b jobStatus appId a b
        now = .ok c) ∧
    (haversine_distance (91/100000) 0 0 0 > 0.1 ∧
      check_in ApplicationStatus.accepted false 0 0 JobStatus.published 1
        (91/100000) 0 5 = .error .tooFar) ∧
    (haversine_distance (89/100000) 0 0 0 ≤ 0.1 ∧
      ∃ c, check_in ApplicationStatus.accepted false 0 0 JobStatus.published 1
        (89/100000) 0 5 = .ok c) := by
  have hmain : ∀ (hasCheckin : Bool) (jobLat jobLng : ℝ) (jobStatus : JobStatus)
      (appId : Nat) (lat lng : ℝ) (now : Nat),
      hasCheckin = false →
      -90 ≤ lat → lat ≤ 90 → -180 ≤ lng → lng ≤ 180 →
      (check_in ApplicationStatus.accepted hasCheckin jobLat jobLng jobStatus
          appId lat lng now = .error .tooFar ↔
        haversine_distance lat lng jobLat jobLng > 0.1) := by
    intro hasCheckin jobLat jobLng jobStatus appId lat lng now hck h1 h2 h3 h4
    subst hck
    unfold check_in
    rw [if_neg (by simp), if_neg (by simp),
      if_neg (not_not.mpr ⟨h1, h2, h3, h4⟩)]
    by_cases hd : haversine_distance lat lng jobLat jobLng
        > MAX_CHECKIN_DISTANCE_KM
    · rw [if_pos hd]
      simpa [MAX_CHECKIN_DISTANCE_KM] using hd
    · rw [if_neg hd]
      constructor
      · intro hcon
        cases hcon
      · intro hgt
        exact absurd (by simpa [MAX_CHECKIN_DISTANCE_KM] using hgt) hd
  have hexact : ∀ (jobStatus : JobStatus) (appId : Nat) (a b : ℝ) (now : Nat),
      -90 ≤ a → a ≤ 90 → -180 ≤ b → b ≤ 180 →
      ∃ c, check_in ApplicationStatus.accepted false a b jobStatus appId a b
        now = .ok c := by
    intro jobStatus appId a b now h1 h2 h3 h4
    refine ⟨(⟨appId, now, a, b⟩,
      if jobStatus = JobStatus.published then JobStatus.in_progress
      else jobStatus), ?_⟩
    unfold check_in
    rw [if_neg (by simp), if_neg (by simp),
      if_neg (not_not.mpr ⟨h1, h2, h3, h4⟩),
      if_neg (by
        rw [haversine_self]
        simp [MAX_CHECKIN_DISTANCE_KM]
        norm_num)]
  refine ⟨hmain, hexact, ⟨point_101m_far, ?_⟩, ⟨point_99m_near, ?_⟩⟩
  · exact (hmain false 0 0 JobStatus.published 1 (91/100000) 0 5 rfl
      (by norm_num) (by norm_num) (by norm_num) (by norm_num)).mpr
      point_101m_far
  · unfold check_in
    rw [if_neg (by simp), if_neg (by simp),
      if_neg (not_not.mpr (by norm_num)),
      if_neg (by
        simpa [MAX_CHECKIN_DISTANCE_KM] using point_99m_near)]
    exact ⟨_, rfl⟩

/-- Witness for C6: the tooFar iff at a concrete far point and the success at
the job's exact coordinates. -/
theorem check_in_toofar_spec_witness :
    (check_in ApplicationStatus.accepted false 0 0 JobStatus.published 1
        (91/100000) 0 5 = .error .tooFar ↔
      haversine_distance (91/100000) 0 0 0 > 0.1) ∧
    (∃ c, check_in ApplicationStatus.accepted false 0 0 JobStatus.published 1
      0 0 5 = .ok c) :=
  ⟨check_in_toofar_spec.1 false 0 0 JobStatus.published 1 (91/100000) 0 5 rfl
      (by norm_num) (by norm_num) (by norm_num) (by norm_num),
   check_in_toofar_spec.2.1 JobStatus.published 1 0 0 5 (by norm_num)
      (by norm_num) (by norm_num) (by norm_num)⟩

end Jumushtap
